import Mathlib

/-!
Shallow embedding of the limit order matching engine in `src/main.cpp`.

The C++ program keeps two `std::map`s of price levels (bids descending,
asks ascending), each level a FIFO `std::list` of shared pointers to
`Order`, plus an `unordered_map` from order id to an `OrderEntry`
(the shared pointer and an iterator into the level's list).

Modelling choices:
* sorted maps become sorted association lists `List (Int × List Order)`
  (bids strictly descending by price, asks strictly ascending);
* the id index `orders_` becomes `List (Nat × OrderEntry)` where
  `OrderEntry` keeps the fields the code ever reads through the index:
  the order's type (read by `MatchOrder`), side and price (read by
  `CancelOrder`); the iterator stored in the entry is realised by
  removing the unique order with that id from the queue at that price;
* `std::uint32_t` quantities become `Nat`; the only arithmetic that can
  wrap is the per-level accumulation in `GetOrderInfos`, which is
  modelled with an explicit `% 2 ^ 32` at each addition;
* prices (`std::int32_t`) become `Int` (only compared, never combined);
* `Order::Fill`, which throws `std::logic_error` on overfill, returns
  `Except String Order`;
* the unbounded `while (true)` matching loop becomes a fuel-indexed
  recursion; one unit of fuel is one iteration of the fused loop
  (one fill event, or one spin when a level's queue is empty — in that
  corrupt, unreachable state the C++ loop never terminates).
-/

namespace OrderBookSpec

inductive OrderType where
  | GoodTillCancel
  | FillAndKill
deriving DecidableEq, Repr

inductive Side where
  | Buy
  | Sell
deriving DecidableEq, Repr

/-- `LevelInfo`: price and aggregated quantity at one level. -/
structure LevelInfo where
  price : Int
  quantity : Nat
deriving DecidableEq, Repr

/-- `OrderbookLevelInfos`: aggregated levels for both sides. -/
structure OrderbookLevelInfos where
  bids : List LevelInfo
  asks : List LevelInfo
deriving DecidableEq, Repr

def OrderbookLevelInfos.GetBids (x : OrderbookLevelInfos) : List LevelInfo := x.bids

def OrderbookLevelInfos.GetAsks (x : OrderbookLevelInfos) : List LevelInfo := x.asks

/-- One order.  The C++ constructor sets `remainingQuantity_ = quantity`. -/
structure Order where
  orderType : OrderType
  orderId : Nat
  side : Side
  price : Int
  initialQuantity : Nat
  remainingQuantity : Nat
deriving DecidableEq, Repr

/-- `Order::Order(type, id, side, price, quantity)`. -/
def mkOrder (t : OrderType) (orderId : Nat) (s : Side) (price : Int) (quantity : Nat) : Order :=
  ⟨t, orderId, s, price, quantity, quantity⟩

def Order.GetFilledQuantity (o : Order) : Nat :=
  o.initialQuantity - o.remainingQuantity

def Order.isFilled (o : Order) : Bool :=
  o.remainingQuantity == 0

/-- `Order::Fill`: throws (`Except.error`) when `quantity` exceeds the
remaining quantity, otherwise subtracts. -/
def Order.Fill (o : Order) (quantity : Nat) : Except String Order :=
  if quantity > o.remainingQuantity then
    Except.error ("Order (" ++ toString o.orderId ++ ") cannot be filled for more than its remaining quantity")
  else
    Except.ok { o with remainingQuantity := o.remainingQuantity - quantity }

/-- `OrderModify`: a modification request. -/
structure OrderModify where
  orderId : Nat
  side : Side
  price : Int
  quantity : Nat
deriving DecidableEq, Repr

/-- `OrderModify::ToOrderPointer`: a brand-new `Order` with the given type
and the request's id/side/price/quantity (remaining reset to quantity). -/
def OrderModify.ToOrderPointer (m : OrderModify) (t : OrderType) : Order :=
  mkOrder t m.orderId m.side m.price m.quantity

/-- `TradeInfo`: one half of a trade. -/
structure TradeInfo where
  orderId : Nat
  price : Int
  quantity : Nat
deriving DecidableEq, Repr

/-- `Trade`: a bid half and an ask half. -/
structure Trade where
  bidTrade : TradeInfo
  askTrade : TradeInfo
deriving DecidableEq, Repr

/-- The index entry for an order id.  The C++ `OrderEntry` stores a shared
pointer to the `Order` plus a list iterator; the fields the program reads
through the index are the order's type (`MatchOrder`), side and price
(`CancelOrder`), all immutable in `Order`. -/
structure OrderEntry where
  orderType : OrderType
  side : Side
  price : Int
deriving DecidableEq, Repr

/-- The order book state: `bids_`, `asks_` (sorted association lists of
price levels) and `orders_` (the id index). -/
structure Book where
  bids : List (Int × List Order)
  asks : List (Int × List Order)
  orders : List (Nat × OrderEntry)
deriving DecidableEq, Repr

/-- The default-constructed (empty) book. -/
def emptyBook : Book := ⟨[], [], []⟩

/-- First entry for a key in the index (`unordered_map::at` / lookup). -/
def lookupIndex : List (Nat × OrderEntry) → Nat → Option OrderEntry
  | [], _ => none
  | (i, e) :: rest, orderId => if i = orderId then some e else lookupIndex rest orderId

/-- `unordered_map::contains`. -/
def containsIndex (l : List (Nat × OrderEntry)) (orderId : Nat) : Bool :=
  (lookupIndex l orderId).isSome

/-- `unordered_map::erase`: removes the (unique) entry for the key. -/
def eraseIndex : List (Nat × OrderEntry) → Nat → List (Nat × OrderEntry)
  | [], _ => []
  | (i, e) :: rest, orderId => if i = orderId then rest else (i, e) :: eraseIndex rest orderId

/-- `list::erase` at the stored iterator: removes the unique order with
this id from a level's queue. -/
def removeOrder : List Order → Nat → List Order
  | [], _ => []
  | o :: rest, orderId => if o.orderId = orderId then rest else o :: removeOrder rest orderId

/-- In `CancelOrder`: `side.at(price)` gets the level's queue, the order is
erased from it, and the level itself is erased if the queue became empty.
(`at` on a missing price would throw; under the book invariant the price
recorded in the index is always present.) -/
def removeFromLevels : List (Int × List Order) → Int → Nat → List (Int × List Order)
  | [], _, _ => []
  | (p, q) :: rest, price, orderId =>
    if p = price then
      let q2 := removeOrder q orderId
      if q2.isEmpty then rest else (p, q2) :: rest
    else (p, q) :: removeFromLevels rest price orderId

/-- `bids_[price].push_back(order)`: keyed insertion into the descending
map, appending at the back of the level's queue. -/
def insertOrderDesc : List (Int × List Order) → Order → List (Int × List Order)
  | [], o => [(o.price, [o])]
  | (p, q) :: rest, o =>
    if o.price = p then (p, q ++ [o]) :: rest
    else if o.price > p then (o.price, [o]) :: (p, q) :: rest
    else (p, q) :: insertOrderDesc rest o

/-- `asks_[price].push_back(order)`: keyed insertion into the ascending map. -/
def insertOrderAsc : List (Int × List Order) → Order → List (Int × List Order)
  | [], o => [(o.price, [o])]
  | (p, q) :: rest, o =>
    if o.price = p then (p, q ++ [o]) :: rest
    else if o.price < p then (o.price, [o]) :: (p, q) :: rest
    else (p, q) :: insertOrderAsc rest o

/-- The queue resting at a given price (empty when the level is absent). -/
def levelQueue : List (Int × List Order) → Int → List Order
  | [], _ => []
  | (p, q) :: rest, price => if p = price then q else levelQueue rest price

/-- `OrderBook::CanMatch`. -/
def CanMatch (b : Book) (side : Side) (price : Int) : Bool :=
  match side with
  | Side.Buy =>
    match b.asks with
    | [] => false
    | (bestAsk, _) :: _ => decide (price ≥ bestAsk)
  | Side.Sell =>
    match b.bids with
    | [] => false
    | (bestBid, _) :: _ => decide (price ≤ bestBid)

/-- `OrderBook::CancelOrder`. -/
def CancelOrder (b : Book) (orderId : Nat) : Book :=
  match lookupIndex b.orders orderId with
  | none => b
  | some entry =>
    let orders2 := eraseIndex b.orders orderId
    if entry.side = Side.Sell then
      { b with asks := removeFromLevels b.asks entry.price orderId, orders := orders2 }
    else
      { b with bids := removeFromLevels b.bids entry.price orderId, orders := orders2 }

/-- Outcome of one iteration of the fused matching loop of
`OrderBook::MatchOrders`:
* `exit` — the outer `while (true)` breaks (a side is empty, or
  `bidPrice < askPrice`), or `Fill` would throw (dead branch, see C8);
* `spin` — the inner `while` guard fails because a level's queue is
  empty, so the outer loop repeats with the book unchanged (in C++ this
  state, unreachable under the invariant, loops forever);
* `step b t` — the front orders of the two best levels are filled by
  `min` of their remaining quantities, filled orders are popped and
  erased from the index, emptied levels are erased, and trade `t` is
  recorded. -/
inductive StepRes where
  | exit
  | spin
  | step (b : Book) (t : Trade)
deriving DecidableEq, Repr

/-- One iteration of the fused matching loop (see `StepRes`). -/
def matchStep (b : Book) : StepRes :=
  match b.bids, b.asks with
  | [], _ => StepRes.exit
  | _ :: _, [] => StepRes.exit
  | (bidPrice, bidList) :: restBids, (askPrice, askList) :: restAsks =>
    if bidPrice < askPrice then StepRes.exit
    else
      match bidList, askList with
      | [], _ => StepRes.spin
      | _ :: _, [] => StepRes.spin
      | bid :: bidTail, ask :: askTail =>
        let quantity := min bid.remainingQuantity ask.remainingQuantity
        match bid.Fill quantity, ask.Fill quantity with
        | Except.ok bid2, Except.ok ask2 =>
          let bidList2 := if bid2.isFilled then bidTail else bid2 :: bidTail
          let askList2 := if ask2.isFilled then askTail else ask2 :: askTail
          let orders1 := if bid2.isFilled then eraseIndex b.orders bid.orderId else b.orders
          let orders2 := if ask2.isFilled then eraseIndex orders1 ask.orderId else orders1
          let bids2 := if bidList2.isEmpty then restBids else (bidPrice, bidList2) :: restBids
          let asks2 := if askList2.isEmpty then restAsks else (askPrice, askList2) :: restAsks
          StepRes.step ⟨bids2, asks2, orders2⟩
            ⟨⟨bid.orderId, bid.price, quantity⟩, ⟨ask.orderId, ask.price, quantity⟩⟩
        | _, _ => StepRes.exit

/-- The matching loop: iterate `matchStep`, accumulating trades (the
accumulator is reversed on exit, so trades come out in emission order). -/
def matchOrdersGo : Nat → Book → List Trade → Book × List Trade
  | 0, b, acc => (b, acc.reverse)
  | Nat.succ fuel, b, acc =>
    match matchStep b with
    | StepRes.exit => (b, acc.reverse)
    | StepRes.spin => matchOrdersGo fuel b acc
    | StepRes.step b2 t => matchOrdersGo fuel b2 (t :: acc)

/-- All orders resting in the book, best bids first, then best asks. -/
def allOrders (b : Book) : List Order :=
  (b.bids.map Prod.snd).flatten ++ (b.asks.map Prod.snd).flatten

/-- Number of orders across all queues of both sides. -/
def totalOrders (b : Book) : Nat :=
  (allOrders b).length

/-- Post-loop cleanup of `MatchOrders`, bid half: if the front order of
the best bid level is FillAndKill, cancel it.  (C++ reads
`bidList.front()`; on an empty queue — unreachable under the invariant —
that is undefined, modelled as a no-op.) -/
def fakCleanupBids (b : Book) : Book :=
  match b.bids with
  | (_, o :: _) :: _ =>
    if o.orderType = OrderType.FillAndKill then CancelOrder b o.orderId else b
  | _ => b

/-- Post-loop cleanup of `MatchOrders`, ask half. -/
def fakCleanupAsks (b : Book) : Book :=
  match b.asks with
  | (_, o :: _) :: _ =>
    if o.orderType = OrderType.FillAndKill then CancelOrder b o.orderId else b
  | _ => b

/-- `OrderBook::MatchOrders`: run the crossing loop, then the FillAndKill
cleanup on each side.  `totalOrders b + 1` fuel covers every iteration the
C++ loop performs on invariant-satisfying books: each fill event removes
at least one order. -/
def MatchOrders (b : Book) : Book × List Trade :=
  let r := matchOrdersGo (totalOrders b + 1) b []
  (fakCleanupAsks (fakCleanupBids r.1), r.2)

/-- `OrderBook::AddOrder`. -/
def AddOrder (b : Book) (order : Order) : Book × List Trade :=
  if containsIndex b.orders order.orderId then (b, [])
  else if order.orderType = OrderType.FillAndKill ∧ CanMatch b order.side order.price = false then
    (b, [])
  else
    let entry : OrderEntry := ⟨order.orderType, order.side, order.price⟩
    let b2 :=
      if order.side = Side.Buy then
        { b with bids := insertOrderDesc b.bids order,
                 orders := b.orders ++ [(order.orderId, entry)] }
      else
        { b with asks := insertOrderAsc b.asks order,
                 orders := b.orders ++ [(order.orderId, entry)] }
    MatchOrders b2

/-- `OrderBook::MatchOrder` (the modify operation): cancel the existing
order, then add a brand-new order with the existing order's type and the
request's side/price/quantity. -/
def MatchOrder (b : Book) (m : OrderModify) : Book × List Trade :=
  match lookupIndex b.orders m.orderId with
  | none => (b, [])
  | some entry =>
    let b2 := CancelOrder b m.orderId
    AddOrder b2 (m.ToOrderPointer entry.orderType)

/-- `OrderBook::Size`. -/
def Size (b : Book) : Nat :=
  b.orders.length

/-- Modelled from the spec (section 4.2, ModifyOrder): "a cancel of the
existing order followed by insertion of a brand-new order carrying the
same order type but the new side/price/quantity and a fresh (reset)
remaining quantity equal to the new quantity; no-op (returns no trades)
if the identifier is unknown."  Written from the spec's words, to be
compared with the source's `MatchOrder`. -/
def modifySpec (b : Book) (m : OrderModify) : Book × List Trade :=
  match lookupIndex b.orders m.orderId with
  | none => (b, [])
  | some entry =>
    AddOrder (CancelOrder b m.orderId)
      { orderType := entry.orderType, orderId := m.orderId, side := m.side, price := m.price,
        initialQuantity := m.quantity, remainingQuantity := m.quantity }

/-- `2 ^ 32`: quantities are `std::uint32_t` in the source. -/
def U32 : Nat := 4294967296

/-- The lambda `CreateLevelInfos` in `GetOrderInfos`: accumulate the
remaining quantities of a level's queue in `std::uint32_t` arithmetic
(wrapping modulo `2 ^ 32` at every addition). -/
def CreateLevelInfos (price : Int) (orders : List Order) : LevelInfo :=
  ⟨price, orders.foldl (fun s o => (s + o.remainingQuantity) % U32) 0⟩

/-- `OrderBook::GetOrderInfos`. -/
def GetOrderInfos (b : Book) : OrderbookLevelInfos :=
  ⟨b.bids.map (fun pl => CreateLevelInfos pl.1 pl.2),
   b.asks.map (fun pl => CreateLevelInfos pl.1 pl.2)⟩

/-- Orders of one side, best level first, FIFO within a level. -/
def sideOrders (ls : List (Int × List Order)) : List Order :=
  (ls.map Prod.snd).flatten

/-- The structural invariants of the book (spec section 3): level keys
sorted by each side's priority order, no empty level queues, every queued
order on the side and at the price of its level, index keys unique, index
keys a permutation of the queued order ids, and each index entry's data
agreeing with the queued order it names. -/
def Inv (b : Book) : Prop :=
  List.Pairwise (· > ·) (b.bids.map Prod.fst) ∧
  List.Pairwise (· < ·) (b.asks.map Prod.fst) ∧
  (∀ pl ∈ b.bids, pl.2 ≠ []) ∧
  (∀ pl ∈ b.asks, pl.2 ≠ []) ∧
  (∀ pl ∈ b.bids, ∀ o ∈ pl.2, o.side = Side.Buy ∧ o.price = pl.1) ∧
  (∀ pl ∈ b.asks, ∀ o ∈ pl.2, o.side = Side.Sell ∧ o.price = pl.1) ∧
  (b.orders.map Prod.fst).Nodup ∧
  (b.orders.map Prod.fst).Perm ((allOrders b).map Order.orderId) ∧
  (∀ ie ∈ b.orders, ∀ o ∈ allOrders b, o.orderId = ie.1 →
    o.orderType = ie.2.orderType ∧ o.side = ie.2.side ∧ o.price = ie.2.price)

instance (b : Book) : Decidable (Inv b) := by
  unfold Inv
  infer_instance

/-- The book is not crossed: when both sides are non-empty, the best bid
price is strictly below the best ask price. -/
def Uncrossed (b : Book) : Prop :=
  match b.bids, b.asks with
  | (bp, _) :: _, (ap, _) :: _ => bp < ap
  | _, _ => True

instance (b : Book) : Decidable (Uncrossed b) := by
  unfold Uncrossed
  rcases b.bids with _ | ⟨⟨bp, bl⟩, br⟩ <;> rcases b.asks with _ | ⟨⟨ap, al⟩, ar⟩ <;>
    simp <;> infer_instance

/-- `QueueC old new`: `new` arises from the FIFO queue `old` by removing
orders from the front and possibly reducing the remaining quantity of the
order that then stands at the front — the shape matching leaves a queue
in.  Every order behind the front is untouched. -/
def QueueC (old new : List Order) : Prop :=
  ∃ dropped : List Order,
    old = dropped ++ new ∨
    ∃ o t q, q ≤ o.remainingQuantity ∧ old = dropped ++ o :: t ∧
      new = { o with remainingQuantity := o.remainingQuantity - q } :: t

/-- `SideC old new`: `new` arises from the price-ordered side `old` by
removing whole levels from the front (best prices first) and possibly
consuming the front of the level that then stands first, in the sense of
`QueueC`.  Levels behind are untouched — matching never reaches a worse
price while a better level is non-empty, and never fills an order while
an earlier order at its price remains. -/
def SideC (old new : List (Int × List Order)) : Prop :=
  ∃ dropped rest, old = dropped ++ rest ∧
    (new = rest ∨
     ∃ p q q' t, rest = (p, q) :: t ∧ new = (p, q') :: t ∧ QueueC q q')

/-! ### Lemmas about the index operations -/

lemma lookupIndex_eq_none (l : List (Nat × OrderEntry)) (orderId : Nat) :
    lookupIndex l orderId = none ↔ orderId ∉ l.map Prod.fst := by
  induction l with
  | nil => simp [lookupIndex]
  | cons he rest ih =>
    obtain ⟨i, e⟩ := he
    by_cases h : i = orderId
    · subst h
      simp [lookupIndex]
    · simp [lookupIndex, h, ih, Ne.symm h]

lemma containsIndex_iff (l : List (Nat × OrderEntry)) (orderId : Nat) :
    containsIndex l orderId = true ↔ orderId ∈ l.map Prod.fst := by
  unfold containsIndex
  rw [Option.isSome_iff_ne_none]
  rw [ne_eq, lookupIndex_eq_none]
  simp

lemma containsIndex_false_iff (l : List (Nat × OrderEntry)) (orderId : Nat) :
    containsIndex l orderId = false ↔ orderId ∉ l.map Prod.fst := by
  rw [← containsIndex_iff]
  simp

lemma lookupIndex_some_mem {l : List (Nat × OrderEntry)} {orderId : Nat} {e : OrderEntry}
    (h : lookupIndex l orderId = some e) : (orderId, e) ∈ l := by
  induction l with
  | nil => simp [lookupIndex] at h
  | cons he rest ih =>
    obtain ⟨i, e'⟩ := he
    by_cases hi : i = orderId
    · subst hi
      simp [lookupIndex] at h
      subst h
      exact List.mem_cons_self _ _
    · simp [lookupIndex, hi] at h
      exact List.mem_cons_of_mem _ (ih h)

lemma lookupIndex_isSome_of_mem {l : List (Nat × OrderEntry)} {orderId : Nat}
    (h : orderId ∈ l.map Prod.fst) : ∃ e, lookupIndex l orderId = some e := by
  cases he : lookupIndex l orderId with
  | none => exact absurd ((lookupIndex_eq_none l orderId).mp he) (by simp [h])
  | some e => exact ⟨e, rfl⟩

lemma eraseIndex_map_fst (l : List (Nat × OrderEntry)) (orderId : Nat) :
    (eraseIndex l orderId).map Prod.fst = (l.map Prod.fst).erase orderId := by
  induction l with
  | nil => simp [eraseIndex]
  | cons he rest ih =>
    obtain ⟨i, e⟩ := he
    by_cases h : i = orderId
    · subst h
      simp [eraseIndex, List.erase_cons_head]
    · simp [eraseIndex, h, ih, List.erase_cons, Ne.symm h]

lemma eraseIndex_sublist (l : List (Nat × OrderEntry)) (orderId : Nat) :
    (eraseIndex l orderId).Sublist l := by
  induction l with
  | nil => simp [eraseIndex]
  | cons he rest ih =>
    obtain ⟨i, e⟩ := he
    by_cases h : i = orderId
    · subst h
      simp [eraseIndex]
    · simpa [eraseIndex, h] using ih.cons₂ (i, e)

lemma eraseIndex_of_not_mem {l : List (Nat × OrderEntry)} {orderId : Nat}
    (h : orderId ∉ l.map Prod.fst) : eraseIndex l orderId = l := by
  induction l with
  | nil => rfl
  | cons he rest ih =>
    obtain ⟨i, e⟩ := he
    have h1 : i ≠ orderId := fun he' => h (by simp [he'])
    have h2 : orderId ∉ rest.map Prod.fst := fun hm => h (by simp [hm])
    simp [eraseIndex, h1, ih h2]

lemma eraseIndex_perm {l : List (Nat × OrderEntry)} {orderId : Nat} {e : OrderEntry}
    (h : lookupIndex l orderId = some e) :
    l.Perm ((orderId, e) :: eraseIndex l orderId) := by
  induction l with
  | nil => simp [lookupIndex] at h
  | cons he rest ih =>
    obtain ⟨i, e'⟩ := he
    by_cases hi : i = orderId
    · subst hi
      simp [lookupIndex] at h
      subst h
      simp [eraseIndex]
    · simp [lookupIndex, hi] at h
      have : ((i, e') :: rest).Perm ((i, e') :: (orderId, e) :: eraseIndex rest orderId) :=
        (ih h).cons _
      refine this.trans ?_
      simpa [eraseIndex, hi] using List.Perm.swap (orderId, e) (i, e') _

/-! ### Lemmas about queue removal -/

lemma removeOrder_map_orderId (q : List Order) (orderId : Nat) :
    (removeOrder q orderId).map Order.orderId = (q.map Order.orderId).erase orderId := by
  induction q with
  | nil => simp [removeOrder]
  | cons o rest ih =>
    by_cases h : o.orderId = orderId
    · simp [removeOrder, h, List.erase_cons_head]
    · simp [removeOrder, h, ih, List.erase_cons, Ne.symm h]

lemma removeOrder_sublist (q : List Order) (orderId : Nat) :
    (removeOrder q orderId).Sublist q := by
  induction q with
  | nil => simp [removeOrder]
  | cons o rest ih =>
    by_cases h : o.orderId = orderId
    · simp [removeOrder, h]
    · simpa [removeOrder, h] using ih.cons₂ o

lemma removeOrder_of_not_mem {q : List Order} {orderId : Nat}
    (h : orderId ∉ q.map Order.orderId) : removeOrder q orderId = q := by
  induction q with
  | nil => rfl
  | cons o rest ih =>
    have h1 : o.orderId ≠ orderId := fun he => h (by simp [he])
    have h2 : orderId ∉ rest.map Order.orderId := fun hm => h (by simp [hm])
    simp [removeOrder, h1, ih h2]

lemma removeOrder_perm {q : List Order} {o : Order}
    (hnd : (q.map Order.orderId).Nodup) (hmem : o ∈ q) :
    q.Perm (o :: removeOrder q o.orderId) := by
  induction q with
  | nil => simp at hmem
  | cons o' rest ih =>
    rw [List.map_cons, List.nodup_cons] at hnd
    rcases List.mem_cons.mp hmem with h | h
    · subst h
      simp [removeOrder]
    · have hne : o'.orderId ≠ o.orderId := by
        intro he
        exact hnd.1 (he ▸ List.mem_map_of_mem Order.orderId h)
      have : (o' :: rest).Perm (o' :: o :: removeOrder rest o.orderId) :=
        (ih hnd.2 h).cons _
      refine this.trans ?_
      simpa [removeOrder, hne] using List.Perm.swap o o' _

/-! ### Lemmas about level removal -/

lemma removeFromLevels_of_not_mem {ls : List (Int × List Order)} {price : Int} {orderId : Nat}
    (h : price ∉ ls.map Prod.fst) : removeFromLevels ls price orderId = ls := by
  induction ls with
  | nil => rfl
  | cons pl rest ih =>
    obtain ⟨p, q⟩ := pl
    have h1 : p ≠ price := fun he => h (by simp [he])
    have h2 : price ∉ rest.map Prod.fst := fun hm => h (by simp [hm])
    simp [removeFromLevels, h1, ih h2]

lemma removeFromLevels_map_fst_sublist (ls : List (Int × List Order)) (price : Int)
    (orderId : Nat) :
    ((removeFromLevels ls price orderId).map Prod.fst).Sublist (ls.map Prod.fst) := by
  induction ls with
  | nil => simp [removeFromLevels]
  | cons pl rest ih =>
    obtain ⟨p, q⟩ := pl
    by_cases h : p = price
    · subst h
      by_cases he : (removeOrder q orderId).isEmpty
      · simp [removeFromLevels, he]
      · simp [removeFromLevels, he]
    · simpa [removeFromLevels, h] using ih.cons₂ p

lemma removeFromLevels_head {p : Int} {q : List Order} {rest : List (Int × List Order)}
    (orderId : Nat) :
    removeFromLevels ((p, q) :: rest) p orderId =
      if (removeOrder q orderId).isEmpty then rest
      else (p, removeOrder q orderId) :: rest := by
  simp [removeFromLevels]

/-! ### Lemmas about sorted level insertion -/

lemma insertOrderDesc_mem_fst {ls : List (Int × List Order)} {o : Order} {k : Int}
    (h : k ∈ (insertOrderDesc ls o).map Prod.fst) : k = o.price ∨ k ∈ ls.map Prod.fst := by
  induction ls with
  | nil =>
    simp [insertOrderDesc] at h
    exact Or.inl h
  | cons pl rest ih =>
    obtain ⟨p, q⟩ := pl
    by_cases h1 : o.price = p
    · simp [insertOrderDesc, h1] at h
      rcases h with h | h
      · exact Or.inr (by simp [h])
      · exact Or.inr (by simp [h])
    · by_cases h2 : o.price > p
      · simp [insertOrderDesc, h1, h2] at h
        rcases h with h | h | h
        · exact Or.inl h
        · exact Or.inr (by simp [h])
        · exact Or.inr (by simp [h])
      · simp [insertOrderDesc, h1, h2] at h
        rcases h with h | h
        · exact Or.inr (by simp [h])
        · rcases ih (by simpa using h) with h' | h'
          · exact Or.inl h'
          · exact Or.inr (by simp [h'])

lemma insertOrderAsc_mem_fst {ls : List (Int × List Order)} {o : Order} {k : Int}
    (h : k ∈ (insertOrderAsc ls o).map Prod.fst) : k = o.price ∨ k ∈ ls.map Prod.fst := by
  induction ls with
  | nil =>
    simp [insertOrderAsc] at h
    exact Or.inl h
  | cons pl rest ih =>
    obtain ⟨p, q⟩ := pl
    by_cases h1 : o.price = p
    · simp [insertOrderAsc, h1] at h
      rcases h with h | h
      · exact Or.inr (by simp [h])
      · exact Or.inr (by simp [h])
    · by_cases h2 : o.price < p
      · simp [insertOrderAsc, h1, h2] at h
        rcases h with h | h | h
        · exact Or.inl h
        · exact Or.inr (by simp [h])
        · exact Or.inr (by simp [h])
      · simp [insertOrderAsc, h1, h2] at h
        rcases h with h | h
        · exact Or.inr (by simp [h])
        · rcases ih (by simpa using h) with h' | h'
          · exact Or.inl h'
          · exact Or.inr (by simp [h'])

lemma insertOrderDesc_sorted {ls : List (Int × List Order)} {o : Order}
    (h : List.Pairwise (· > ·) (ls.map Prod.fst)) :
    List.Pairwise (· > ·) ((insertOrderDesc ls o).map Prod.fst) := by
  induction ls with
  | nil => simp [insertOrderDesc]
  | cons pl rest ih =>
    obtain ⟨p, q⟩ := pl
    simp only [List.map_cons, List.pairwise_cons] at h
    by_cases h1 : o.price = p
    · simp only [insertOrderDesc, h1, if_pos rfl]
      exact List.pairwise_cons.mpr h
    · by_cases h2 : o.price > p
      · simp only [insertOrderDesc, h1, if_neg h1, if_pos h2, List.map_cons]
        refine List.pairwise_cons.mpr ⟨?_, List.pairwise_cons.mpr h⟩
        intro k hk
        simp at hk
        rcases hk with hk | hk
        · omega
        · have := h.1 k (by simpa using hk)
          omega
      · simp only [insertOrderDesc, h1, if_neg h1, if_neg h2, List.map_cons]
        refine List.pairwise_cons.mpr ⟨?_, ih h.2⟩
        intro k hk
        rcases insertOrderDesc_mem_fst hk with hk' | hk'
        · subst hk'
          omega
        · exact h.1 k hk'

lemma insertOrderAsc_sorted {ls : List (Int × List Order)} {o : Order}
    (h : List.Pairwise (· < ·) (ls.map Prod.fst)) :
    List.Pairwise (· < ·) ((insertOrderAsc ls o).map Prod.fst) := by
  induction ls with
  | nil => simp [insertOrderAsc]
  | cons pl rest ih =>
    obtain ⟨p, q⟩ := pl
    simp only [List.map_cons, List.pairwise_cons] at h
    by_cases h1 : o.price = p
    · simp only [insertOrderAsc, h1, if_pos rfl]
      exact List.pairwise_cons.mpr h
    · by_cases h2 : o.price < p
      · simp only [insertOrderAsc, h1, if_neg h1, if_pos h2, List.map_cons]
        refine List.pairwise_cons.mpr ⟨?_, List.pairwise_cons.mpr h⟩
        intro k hk
        simp at hk
        rcases hk with hk | hk
        · omega
        · have := h.1 k (by simpa using hk)
          omega
      · simp only [insertOrderAsc, h1, if_neg h1, if_neg h2, List.map_cons]
        refine List.pairwise_cons.mpr ⟨?_, ih h.2⟩
        intro k hk
        rcases insertOrderAsc_mem_fst hk with hk' | hk'
        · subst hk'
          omega
        · exact h.1 k hk'

lemma sideOrders_nil : sideOrders [] = [] := rfl

lemma sideOrders_cons (p : Int) (q : List Order) (rest : List (Int × List Order)) :
    sideOrders ((p, q) :: rest) = q ++ sideOrders rest := by
  simp [sideOrders]

lemma sideOrders_insertOrderDesc (ls : List (Int × List Order)) (o : Order) :
    (sideOrders (insertOrderDesc ls o)).Perm (o :: sideOrders ls) := by
  induction ls with
  | nil => simp [insertOrderDesc, sideOrders]
  | cons pl rest ih =>
    obtain ⟨p, q⟩ := pl
    by_cases h1 : o.price = p
    · subst h1
      rw [show insertOrderDesc ((o.price, q) :: rest) o = (o.price, q ++ [o]) :: rest by
        simp [insertOrderDesc]]
      rw [sideOrders_cons, sideOrders_cons]
      have he : (q ++ [o]) ++ sideOrders rest = q ++ o :: sideOrders rest := by simp
      rw [he]
      exact List.perm_middle
    · by_cases h2 : o.price > p
      · simp [insertOrderDesc, h1, h2, sideOrders_cons]
      · simp only [insertOrderDesc, h1, if_neg h1, if_neg h2, sideOrders_cons]
        refine (ih.append_left q).trans ?_
        exact List.perm_middle

lemma sideOrders_insertOrderAsc (ls : List (Int × List Order)) (o : Order) :
    (sideOrders (insertOrderAsc ls o)).Perm (o :: sideOrders ls) := by
  induction ls with
  | nil => simp [insertOrderAsc, sideOrders]
  | cons pl rest ih =>
    obtain ⟨p, q⟩ := pl
    by_cases h1 : o.price = p
    · subst h1
      rw [show insertOrderAsc ((o.price, q) :: rest) o = (o.price, q ++ [o]) :: rest by
        simp [insertOrderAsc]]
      rw [sideOrders_cons, sideOrders_cons]
      have he : (q ++ [o]) ++ sideOrders rest = q ++ o :: sideOrders rest := by simp
      rw [he]
      exact List.perm_middle
    · by_cases h2 : o.price < p
      · simp [insertOrderAsc, h1, h2, sideOrders_cons]
      · simp only [insertOrderAsc, h1, if_neg h1, if_neg h2, sideOrders_cons]
        refine (ih.append_left q).trans ?_
        exact List.perm_middle

lemma insertOrderDesc_nonempty {ls : List (Int × List Order)} {o : Order}
    (h : ∀ pl ∈ ls, pl.2 ≠ []) : ∀ pl ∈ insertOrderDesc ls o, pl.2 ≠ [] := by
  induction ls with
  | nil =>
    intro pl hpl
    simp [insertOrderDesc] at hpl
    simp [hpl]
  | cons pl0 rest ih =>
    obtain ⟨p, q⟩ := pl0
    intro pl hpl
    by_cases h1 : o.price = p
    · simp [insertOrderDesc, h1] at hpl
      rcases hpl with hpl | hpl
      · simp [hpl]
      · exact h pl (by simp [hpl])
    · by_cases h2 : o.price > p
      · simp [insertOrderDesc, h1, h2] at hpl
        rcases hpl with hpl | hpl | hpl
        · simp [hpl]
        · exact h pl (by simp [hpl])
        · exact h pl (by simp [hpl])
      · simp [insertOrderDesc, h1, h2] at hpl
        rcases hpl with hpl | hpl
        · exact h pl (by simp [hpl])
        · exact ih (fun pl' hpl' => h pl' (by simp [hpl'])) pl hpl

lemma insertOrderAsc_nonempty {ls : List (Int × List Order)} {o : Order}
    (h : ∀ pl ∈ ls, pl.2 ≠ []) : ∀ pl ∈ insertOrderAsc ls o, pl.2 ≠ [] := by
  induction ls with
  | nil =>
    intro pl hpl
    simp [insertOrderAsc] at hpl
    simp [hpl]
  | cons pl0 rest ih =>
    obtain ⟨p, q⟩ := pl0
    intro pl hpl
    by_cases h1 : o.price = p
    · simp [insertOrderAsc, h1] at hpl
      rcases hpl with hpl | hpl
      · simp [hpl]
      · exact h pl (by simp [hpl])
    · by_cases h2 : o.price < p
      · simp [insertOrderAsc, h1, h2] at hpl
        rcases hpl with hpl | hpl | hpl
        · simp [hpl]
        · exact h pl (by simp [hpl])
        · exact h pl (by simp [hpl])
      · simp [insertOrderAsc, h1, h2] at hpl
        rcases hpl with hpl | hpl
        · exact h pl (by simp [hpl])
        · exact ih (fun pl' hpl' => h pl' (by simp [hpl'])) pl hpl

lemma insertOrderDesc_sides {ls : List (Int × List Order)} {o : Order}
    (h : ∀ pl ∈ ls, ∀ o' ∈ pl.2, o'.side = Side.Buy ∧ o'.price = pl.1)
    (ho : o.side = Side.Buy) :
    ∀ pl ∈ insertOrderDesc ls o, ∀ o' ∈ pl.2, o'.side = Side.Buy ∧ o'.price = pl.1 := by
  induction ls with
  | nil =>
    intro pl hpl o' ho'
    simp [insertOrderDesc] at hpl
    subst hpl
    simp at ho'
    subst ho'
    exact ⟨ho, rfl⟩
  | cons pl0 rest ih =>
    obtain ⟨p, q⟩ := pl0
    intro pl hpl o' ho'
    by_cases h1 : o.price = p
    · simp [insertOrderDesc, h1] at hpl
      rcases hpl with hpl | hpl
      · subst hpl
        simp at ho'
        rcases ho' with ho' | ho'
        · exact h (p, q) (by simp) o' (by simpa using ho')
        · subst ho'
          exact ⟨ho, by simpa using h1⟩
      · exact h pl (by simp [hpl]) o' ho'
    · by_cases h2 : o.price > p
      · simp [insertOrderDesc, h1, h2] at hpl
        rcases hpl with hpl | hpl | hpl
        · subst hpl
          simp at ho'
          subst ho'
          exact ⟨ho, rfl⟩
        · exact h pl (by simp [hpl]) o' ho'
        · exact h pl (by simp [hpl]) o' ho'
      · simp [insertOrderDesc, h1, h2] at hpl
        rcases hpl with hpl | hpl
        · exact h pl (by simp [hpl]) o' ho'
        · exact ih (fun pl' hpl' => h pl' (by simp [hpl'])) pl hpl o' ho'

lemma insertOrderAsc_sides {ls : List (Int × List Order)} {o : Order}
    (h : ∀ pl ∈ ls, ∀ o' ∈ pl.2, o'.side = Side.Sell ∧ o'.price = pl.1)
    (ho : o.side = Side.Sell) :
    ∀ pl ∈ insertOrderAsc ls o, ∀ o' ∈ pl.2, o'.side = Side.Sell ∧ o'.price = pl.1 := by
  induction ls with
  | nil =>
    intro pl hpl o' ho'
    simp [insertOrderAsc] at hpl
    subst hpl
    simp at ho'
    subst ho'
    exact ⟨ho, rfl⟩
  | cons pl0 rest ih =>
    obtain ⟨p, q⟩ := pl0
    intro pl hpl o' ho'
    by_cases h1 : o.price = p
    · simp [insertOrderAsc, h1] at hpl
      rcases hpl with hpl | hpl
      · subst hpl
        simp at ho'
        rcases ho' with ho' | ho'
        · exact h (p, q) (by simp) o' (by simpa using ho')
        · subst ho'
          exact ⟨ho, by simpa using h1⟩
      · exact h pl (by simp [hpl]) o' ho'
    · by_cases h2 : o.price < p
      · simp [insertOrderAsc, h1, h2] at hpl
        rcases hpl with hpl | hpl | hpl
        · subst hpl
          simp at ho'
          subst ho'
          exact ⟨ho, rfl⟩
        · exact h pl (by simp [hpl]) o' ho'
        · exact h pl (by simp [hpl]) o' ho'
      · simp [insertOrderAsc, h1, h2] at hpl
        rcases hpl with hpl | hpl
        · exact h pl (by simp [hpl]) o' ho'
        · exact ih (fun pl' hpl' => h pl' (by simp [hpl'])) pl hpl o' ho'

/-! ### Decomposition of a side around a level, and `levelQueue` -/

lemma allOrders_eq (b : Book) : allOrders b = sideOrders b.bids ++ sideOrders b.asks := rfl

lemma sideOrders_append (a c : List (Int × List Order)) :
    sideOrders (a ++ c) = sideOrders a ++ sideOrders c := by
  simp [sideOrders]

lemma mem_decompose_keys {ls : List (Int × List Order)} {p : Int} {q : List Order}
    (hmem : (p, q) ∈ ls) (hnd : (ls.map Prod.fst).Nodup) :
    ∃ l1 l2, ls = l1 ++ (p, q) :: l2 ∧ p ∉ l1.map Prod.fst := by
  obtain ⟨l1, l2, rfl⟩ := List.append_of_mem hmem
  refine ⟨l1, l2, rfl, ?_⟩
  intro hp
  rw [List.map_append, List.map_cons] at hnd
  exact (List.disjoint_of_nodup_append hnd) hp (by simp)

lemma removeFromLevels_append (l1 l2 : List (Int × List Order)) (p : Int) (q : List Order)
    (orderId : Nat) (h : p ∉ l1.map Prod.fst) :
    removeFromLevels (l1 ++ (p, q) :: l2) p orderId =
      l1 ++ (if (removeOrder q orderId).isEmpty then [] else [(p, removeOrder q orderId)]) ++ l2 := by
  induction l1 with
  | nil =>
    by_cases he : (removeOrder q orderId).isEmpty
    · simp [removeFromLevels, he]
    · simp [removeFromLevels, he]
  | cons pl rest ih =>
    obtain ⟨p', q'⟩ := pl
    have h1 : p' ≠ p := fun he => h (by simp [he])
    have h2 : p ∉ rest.map Prod.fst := fun hm => h (by simp [hm])
    rw [List.cons_append]
    rw [show removeFromLevels ((p', q') :: (rest ++ (p, q) :: l2)) p orderId
        = (p', q') :: removeFromLevels (rest ++ (p, q) :: l2) p orderId by
      simp [removeFromLevels, h1]]
    rw [ih h2]
    simp

lemma levelQueue_of_not_mem {ls : List (Int × List Order)} {price : Int}
    (h : price ∉ ls.map Prod.fst) : levelQueue ls price = [] := by
  induction ls with
  | nil => rfl
  | cons pl rest ih =>
    obtain ⟨p, q⟩ := pl
    have h1 : p ≠ price := fun he => h (by simp [he])
    have h2 : price ∉ rest.map Prod.fst := fun hm => h (by simp [hm])
    simp [levelQueue, h1, ih h2]

lemma insertOrderDesc_levelQueue_self {ls : List (Int × List Order)} {o : Order}
    (h : List.Pairwise (· > ·) (ls.map Prod.fst)) :
    levelQueue (insertOrderDesc ls o) o.price = levelQueue ls o.price ++ [o] := by
  induction ls with
  | nil => simp [insertOrderDesc, levelQueue]
  | cons pl rest ih =>
    obtain ⟨p, q⟩ := pl
    simp only [List.map_cons, List.pairwise_cons] at h
    by_cases h1 : o.price = p
    · subst h1
      rw [show insertOrderDesc ((o.price, q) :: rest) o = (o.price, q ++ [o]) :: rest by
        simp [insertOrderDesc]]
      simp [levelQueue]
    · by_cases h2 : o.price > p
      · simp only [insertOrderDesc, if_neg h1, if_pos h2]
        have hnm : o.price ∉ rest.map Prod.fst := by
          intro hm
          have := h.1 o.price hm
          omega
        simp [levelQueue, levelQueue_of_not_mem hnm, Ne.symm h1]
      · simp only [insertOrderDesc, if_neg h1, if_neg h2]
        simp [levelQueue, Ne.symm h1, ih h.2]

lemma insertOrderAsc_levelQueue_self {ls : List (Int × List Order)} {o : Order}
    (h : List.Pairwise (· < ·) (ls.map Prod.fst)) :
    levelQueue (insertOrderAsc ls o) o.price = levelQueue ls o.price ++ [o] := by
  induction ls with
  | nil => simp [insertOrderAsc, levelQueue]
  | cons pl rest ih =>
    obtain ⟨p, q⟩ := pl
    simp only [List.map_cons, List.pairwise_cons] at h
    by_cases h1 : o.price = p
    · subst h1
      rw [show insertOrderAsc ((o.price, q) :: rest) o = (o.price, q ++ [o]) :: rest by
        simp [insertOrderAsc]]
      simp [levelQueue]
    · by_cases h2 : o.price < p
      · simp only [insertOrderAsc, if_neg h1, if_pos h2]
        have hnm : o.price ∉ rest.map Prod.fst := by
          intro hm
          have := h.1 o.price hm
          omega
        simp [levelQueue, levelQueue_of_not_mem hnm, Ne.symm h1]
      · simp only [insertOrderAsc, if_neg h1, if_neg h2]
        simp [levelQueue, Ne.symm h1, ih h.2]

lemma insertOrderDesc_levelQueue_other {ls : List (Int × List Order)} {o : Order} {p' : Int}
    (h : p' ≠ o.price) :
    levelQueue (insertOrderDesc ls o) p' = levelQueue ls p' := by
  induction ls with
  | nil => simp [insertOrderDesc, levelQueue, Ne.symm h]
  | cons pl rest ih =>
    obtain ⟨p, q⟩ := pl
    by_cases h1 : o.price = p
    · subst h1
      rw [show insertOrderDesc ((o.price, q) :: rest) o = (o.price, q ++ [o]) :: rest by
        simp [insertOrderDesc]]
      simp [levelQueue, Ne.symm h]
    · by_cases h2 : o.price > p
      · simp only [insertOrderDesc, if_neg h1, if_pos h2]
        simp [levelQueue, Ne.symm h]
      · simp only [insertOrderDesc, if_neg h1, if_neg h2]
        by_cases h3 : p = p'
        · simp [levelQueue, h3]
        · simp [levelQueue, h3, ih]

lemma insertOrderAsc_levelQueue_other {ls : List (Int × List Order)} {o : Order} {p' : Int}
    (h : p' ≠ o.price) :
    levelQueue (insertOrderAsc ls o) p' = levelQueue ls p' := by
  induction ls with
  | nil => simp [insertOrderAsc, levelQueue, Ne.symm h]
  | cons pl rest ih =>
    obtain ⟨p, q⟩ := pl
    by_cases h1 : o.price = p
    · subst h1
      rw [show insertOrderAsc ((o.price, q) :: rest) o = (o.price, q ++ [o]) :: rest by
        simp [insertOrderAsc]]
      simp [levelQueue, Ne.symm h]
    · by_cases h2 : o.price < p
      · simp only [insertOrderAsc, if_neg h1, if_pos h2]
        simp [levelQueue, Ne.symm h]
      · simp only [insertOrderAsc, if_neg h1, if_neg h2]
        by_cases h3 : p = p'
        · simp [levelQueue, h3]
        · simp [levelQueue, h3, ih]

lemma insertOrderDesc_front {ls : List (Int × List Order)} {o : Order}
    (h : ∀ k ∈ ls.map Prod.fst, k < o.price) :
    insertOrderDesc ls o = (o.price, [o]) :: ls := by
  cases ls with
  | nil => rfl
  | cons pl rest =>
    obtain ⟨p, q⟩ := pl
    have hp : p < o.price := h p (by simp)
    have h1 : o.price ≠ p := by omega
    simp [insertOrderDesc, h1, hp]

lemma insertOrderAsc_front {ls : List (Int × List Order)} {o : Order}
    (h : ∀ k ∈ ls.map Prod.fst, o.price < k) :
    insertOrderAsc ls o = (o.price, [o]) :: ls := by
  cases ls with
  | nil => rfl
  | cons pl rest =>
    obtain ⟨p, q⟩ := pl
    have hp : o.price < p := h p (by simp)
    have h1 : o.price ≠ p := by omega
    simp [insertOrderAsc, h1, hp]

/-! ### Sorted-head bounds and uncrossedness monotonicity -/

lemma le_head_of_sorted_desc (x : Int) (xs : List Int) {k : Int}
    (h : List.Pairwise (· > ·) (x :: xs)) (hk : k ∈ x :: xs) : k ≤ x := by
  rcases List.mem_cons.mp hk with h' | h'
  · omega
  · have := (List.pairwise_cons.mp h).1 k h'
    omega

lemma head_le_of_sorted_asc (x : Int) (xs : List Int) {k : Int}
    (h : List.Pairwise (· < ·) (x :: xs)) (hk : k ∈ x :: xs) : x ≤ k := by
  rcases List.mem_cons.mp hk with h' | h'
  · omega
  · have := (List.pairwise_cons.mp h).1 k h'
    omega

lemma uncrossed_mono {b b' : Book}
    (hbs : List.Pairwise (· > ·) (b.bids.map Prod.fst))
    (has : List.Pairwise (· < ·) (b.asks.map Prod.fst))
    (hU : Uncrossed b)
    (hb : (b'.bids.map Prod.fst).Sublist (b.bids.map Prod.fst))
    (ha : (b'.asks.map Prod.fst).Sublist (b.asks.map Prod.fst)) : Uncrossed b' := by
  unfold Uncrossed
  rcases hbb : b'.bids with _ | ⟨⟨bp', bl'⟩, br'⟩
  · simp
  rcases hba : b'.asks with _ | ⟨⟨ap', al'⟩, ar'⟩
  · simp
  have hbpm : bp' ∈ b.bids.map Prod.fst := hb.mem (by simp [hbb])
  have hapm : ap' ∈ b.asks.map Prod.fst := ha.mem (by simp [hba])
  rcases hob : b.bids with _ | ⟨⟨bp, bl⟩, br⟩
  · rw [hob] at hbpm
    simp at hbpm
  rcases hoa : b.asks with _ | ⟨⟨ap, al⟩, ar⟩
  · rw [hoa] at hapm
    simp at hapm
  have hU' : bp < ap := by
    unfold Uncrossed at hU
    rw [hob, hoa] at hU
    exact hU
  rw [hob] at hbpm hbs
  rw [hoa] at hapm has
  have h1 : bp' ≤ bp :=
    le_head_of_sorted_desc bp (br.map Prod.fst)
      (by simpa using hbs) (by simpa using hbpm)
  have h2 : ap ≤ ap' :=
    head_le_of_sorted_asc ap (ar.map Prod.fst)
      (by simpa using has) (by simpa using hapm)
  omega

/-! ### CancelOrder preserves the invariants -/

lemma mem_sideOrders {ls : List (Int × List Order)} {o : Order} :
    o ∈ sideOrders ls ↔ ∃ pl ∈ ls, o ∈ pl.2 := by
  simp only [sideOrders, List.mem_flatten, List.mem_map]
  constructor
  · rintro ⟨l, ⟨pl, hpl, rfl⟩, ho⟩
    exact ⟨pl, hpl, ho⟩
  · rintro ⟨pl, hpl, ho⟩
    exact ⟨pl.2, ⟨pl, hpl, rfl⟩, ho⟩

lemma inv_allIds_nodup {b : Book} (hInv : Inv b) :
    ((allOrders b).map Order.orderId).Nodup := by
  obtain ⟨-, -, -, -, -, -, hnd, hperm, -⟩ := hInv
  exact hperm.nodup_iff.mp hnd

lemma cancel_of_not_contains {b : Book} {orderId : Nat}
    (h : containsIndex b.orders orderId = false) : CancelOrder b orderId = b := by
  have h1 := (containsIndex_false_iff _ _).mp h
  have hl : lookupIndex b.orders orderId = none := (lookupIndex_eq_none _ _).mpr h1
  simp [CancelOrder, hl]

lemma lookup_locates {b : Book} {orderId : Nat} {e : OrderEntry}
    (hInv : Inv b) (hl : lookupIndex b.orders orderId = some e) :
    ∃ o q, o ∈ q ∧ o.orderId = orderId ∧ o.orderType = e.orderType ∧ o.side = e.side ∧
      o.price = e.price ∧
      (e.side = Side.Buy → (e.price, q) ∈ b.bids) ∧
      (e.side = Side.Sell → (e.price, q) ∈ b.asks) := by
  obtain ⟨hbs, has, hbn, han, hbsd, hasd, hnd, hperm, hdata⟩ := hInv
  have hkey : orderId ∈ b.orders.map Prod.fst := by
    refine (containsIndex_iff _ _).mp ?_
    unfold containsIndex
    rw [hl]
    rfl
  have hid : orderId ∈ (allOrders b).map Order.orderId := hperm.mem_iff.mp hkey
  obtain ⟨o, ho, hoid⟩ := List.mem_map.mp hid
  have hfields := hdata (orderId, e) (lookupIndex_some_mem hl) o ho hoid
  rw [allOrders_eq] at ho
  rcases List.mem_append.mp ho with hob | hoa
  · obtain ⟨pl, hpl, hoq⟩ := mem_sideOrders.mp hob
    obtain ⟨pp, pq⟩ := pl
    have hside := hbsd (pp, pq) hpl o hoq
    refine ⟨o, pq, hoq, hoid, hfields.1, hfields.2.1, hfields.2.2, ?_, ?_⟩
    · intro hbuy
      have hpe : e.price = pp := by
        rw [← hfields.2.2]
        exact hside.2
      rw [hpe]
      exact hpl
    · intro hsell
      rw [hside.1] at hfields
      rw [← hfields.2.1] at hsell
      exact absurd hsell (by simp)
  · obtain ⟨pl, hpl, hoq⟩ := mem_sideOrders.mp hoa
    obtain ⟨pp, pq⟩ := pl
    have hside := hasd (pp, pq) hpl o hoq
    refine ⟨o, pq, hoq, hoid, hfields.1, hfields.2.1, hfields.2.2, ?_, ?_⟩
    · intro hbuy
      rw [hside.1] at hfields
      rw [← hfields.2.1] at hbuy
      exact absurd hbuy (by simp)
    · intro hsell
      have hpe : e.price = pp := by
        rw [← hfields.2.2]
        exact hside.2
      rw [hpe]
      exact hpl

lemma removeFromLevels_spec {ls : List (Int × List Order)} {o : Order} {q : List Order}
    (hknd : (ls.map Prod.fst).Nodup)
    (hidnd : ((sideOrders ls).map Order.orderId).Nodup)
    (hq : (o.price, q) ∈ ls) (ho : o ∈ q) :
    (sideOrders ls).Perm (o :: sideOrders (removeFromLevels ls o.price o.orderId)) ∧
    (∀ pl ∈ removeFromLevels ls o.price o.orderId,
      pl ∈ ls ∨ ∃ r, pl = (o.price, r) ∧ r.Sublist q ∧ r ≠ []) := by
  obtain ⟨l1, l2, hls, hnp⟩ := mem_decompose_keys hq hknd
  subst hls
  have hrm := removeFromLevels_append l1 l2 o.price q o.orderId hnp
  have hqsub : q.Sublist (sideOrders (l1 ++ (o.price, q) :: l2)) := by
    rw [sideOrders_append, sideOrders_cons]
    exact ((List.sublist_append_left q (sideOrders l2)).trans
      (List.sublist_append_right (sideOrders l1) _))
  have hqnd : (q.map Order.orderId).Nodup := (hqsub.map Order.orderId).nodup hidnd
  have hpq : q.Perm (o :: removeOrder q o.orderId) := removeOrder_perm hqnd ho
  have hsmid : sideOrders
      (if (removeOrder q o.orderId).isEmpty then []
       else [(o.price, removeOrder q o.orderId)]) = removeOrder q o.orderId := by
    by_cases hre : (removeOrder q o.orderId).isEmpty
    · rw [if_pos hre]
      rw [List.isEmpty_iff.mp hre]
      rfl
    · rw [if_neg hre]
      simp [sideOrders]
  constructor
  · rw [hrm, sideOrders_append, sideOrders_append, sideOrders_append, sideOrders_cons, hsmid]
    have step1 : (sideOrders l1 ++ (q ++ sideOrders l2)).Perm
        (sideOrders l1 ++ ((o :: removeOrder q o.orderId) ++ sideOrders l2)) :=
      ((hpq.append_right (sideOrders l2)).append_left (sideOrders l1))
    refine step1.trans ?_
    rw [show (o :: removeOrder q o.orderId) ++ sideOrders l2
        = o :: (removeOrder q o.orderId ++ sideOrders l2) from rfl]
    simp [List.append_assoc]
  · intro pl hpl
    rw [hrm] at hpl
    rcases List.mem_append.mp hpl with hpl' | hpl'
    · rcases List.mem_append.mp hpl' with h1 | h2
      · exact Or.inl (List.mem_append.mpr (Or.inl h1))
      · by_cases hre : (removeOrder q o.orderId).isEmpty
        · rw [if_pos hre] at h2
          simp at h2
        · rw [if_neg hre] at h2
          simp at h2
          exact Or.inr ⟨removeOrder q o.orderId, by simp [h2],
            removeOrder_sublist q o.orderId, by simpa using hre⟩
    · exact Or.inl (by simp [hpl'])

lemma cancel_inv {b : Book} (orderId : Nat) (hInv : Inv b) : Inv (CancelOrder b orderId) := by
  cases hl : lookupIndex b.orders orderId with
  | none =>
    simp [CancelOrder, hl]
    exact hInv
  | some e =>
    obtain ⟨o, q, hoq, hoid, hot, hos, hop, hbuy, hsell⟩ := lookup_locates hInv hl
    have hallnd := inv_allIds_nodup hInv
    obtain ⟨hbs, has, hbn, han, hbsd, hasd, hnd, hperm, hdata⟩ := hInv
    have hordersperm : b.orders.Perm ((orderId, e) :: eraseIndex b.orders orderId) :=
      eraseIndex_perm hl
    have hkeysperm : (b.orders.map Prod.fst).Perm
        (orderId :: (eraseIndex b.orders orderId).map Prod.fst) := by
      simpa using hordersperm.map Prod.fst
    have hkeynd : ((eraseIndex b.orders orderId).map Prod.fst).Nodup := by
      rw [eraseIndex_map_fst]
      exact hnd.erase orderId
    have herasesub : (eraseIndex b.orders orderId).Sublist b.orders :=
      eraseIndex_sublist b.orders orderId
    cases hside : e.side with
    | Sell =>
      have hmem : (e.price, q) ∈ b.asks := hsell hside
      have hasknd : ((sideOrders b.asks).map Order.orderId).Nodup := by
        rw [allOrders_eq, List.map_append] at hallnd
        exact hallnd.of_append_right
      obtain ⟨hsperm, hsmem⟩ :=
        removeFromLevels_spec has.nodup hasknd (hop ▸ hmem) hoq
      rw [hop, hoid] at hsperm hsmem
      have hb' : CancelOrder b orderId =
          { b with asks := removeFromLevels b.asks e.price orderId,
                   orders := eraseIndex b.orders orderId } := by
        simp [CancelOrder, hl, hside]
      rw [hb']
      set A' := removeFromLevels b.asks e.price orderId with hA'
      have habperm : (allOrders b).Perm
          (o :: allOrders { b with asks := A', orders := eraseIndex b.orders orderId }) := by
        rw [allOrders_eq, allOrders_eq]
        refine (hsperm.append_left (sideOrders b.bids)).trans ?_
        exact List.perm_middle
      refine ⟨hbs, ?_, hbn, ?_, hbsd, ?_, hkeynd, ?_, ?_⟩
      · exact has.sublist (removeFromLevels_map_fst_sublist b.asks e.price orderId)
      · intro pl hpl
        rcases hsmem pl hpl with h1 | ⟨r, rfl, hrs, hrne⟩
        · exact han pl h1
        · exact hrne
      · intro pl hpl o' ho'
        rcases hsmem pl hpl with h1 | ⟨r, rfl, hrs, hrne⟩
        · exact hasd pl h1 o' ho'
        · have ho'q : o' ∈ q := hrs.subset ho'
          have := hasd (e.price, q) hmem o' ho'q
          exact ⟨this.1, this.2⟩
      · refine (hkeysperm.symm.trans (hperm.trans ?_)).cons_inv
        simpa [hoid] using habperm.map Order.orderId
      · intro ie hie o' ho' heq
        exact hdata ie (herasesub.subset hie) o'
          (habperm.mem_iff.mpr (List.mem_cons_of_mem _ ho')) heq
    | Buy =>
      have hmem : (e.price, q) ∈ b.bids := hbuy hside
      have hbidnd : ((sideOrders b.bids).map Order.orderId).Nodup := by
        rw [allOrders_eq, List.map_append] at hallnd
        exact hallnd.of_append_left
      obtain ⟨hsperm, hsmem⟩ :=
        removeFromLevels_spec hbs.nodup hbidnd (hop ▸ hmem) hoq
      rw [hop, hoid] at hsperm hsmem
      have hb' : CancelOrder b orderId =
          { b with bids := removeFromLevels b.bids e.price orderId,
                   orders := eraseIndex b.orders orderId } := by
        simp [CancelOrder, hl, hside]
      rw [hb']
      set B' := removeFromLevels b.bids e.price orderId with hB'
      have habperm : (allOrders b).Perm
          (o :: allOrders { b with bids := B', orders := eraseIndex b.orders orderId }) := by
        rw [allOrders_eq, allOrders_eq]
        refine (hsperm.append_right (sideOrders b.asks)).trans ?_
        rfl
      refine ⟨?_, has, ?_, han, ?_, hasd, hkeynd, ?_, ?_⟩
      · exact hbs.sublist (removeFromLevels_map_fst_sublist b.bids e.price orderId)
      · intro pl hpl
        rcases hsmem pl hpl with h1 | ⟨r, rfl, hrs, hrne⟩
        · exact hbn pl h1
        · exact hrne
      · intro pl hpl o' ho'
        rcases hsmem pl hpl with h1 | ⟨r, rfl, hrs, hrne⟩
        · exact hbsd pl h1 o' ho'
        · have ho'q : o' ∈ q := hrs.subset ho'
          have := hbsd (e.price, q) hmem o' ho'q
          exact ⟨this.1, this.2⟩
      · refine (hkeysperm.symm.trans (hperm.trans ?_)).cons_inv
        simpa [hoid] using habperm.map Order.orderId
      · intro ie hie o' ho' heq
        exact hdata ie (herasesub.subset hie) o'
          (habperm.mem_iff.mpr (List.mem_cons_of_mem _ ho')) heq

/-! ### Insertion preserves the invariants -/

lemma insert_inv_buy {b : Book} {o : Order} (hInv : Inv b)
    (hfresh : containsIndex b.orders o.orderId = false) (hside : o.side = Side.Buy) :
    Inv { b with bids := insertOrderDesc b.bids o, orders := b.orders ++ [(o.orderId, ⟨o.orderType, o.side, o.price⟩)] } := by
  obtain ⟨hbs, has, hbn, han, hbsd, hasd, hnd, hperm, hdata⟩ := hInv
  have hnm : o.orderId ∉ b.orders.map Prod.fst := (containsIndex_false_iff _ _).mp hfresh
  have hkeysperm : ((b.orders ++ [(o.orderId, (⟨o.orderType, o.side, o.price⟩ : OrderEntry))]).map Prod.fst).Perm (o.orderId :: b.orders.map Prod.fst) := by
    rw [List.map_append]
    simp
  have hallperm : (allOrders { b with bids := insertOrderDesc b.bids o, orders := b.orders ++ [(o.orderId, ⟨o.orderType, o.side, o.price⟩)] }).Perm (o :: allOrders b) := by
    rw [allOrders_eq, allOrders_eq]
    exact (sideOrders_insertOrderDesc b.bids o).append_right (sideOrders b.asks)
  refine ⟨insertOrderDesc_sorted hbs, has, insertOrderDesc_nonempty hbn, han,
    insertOrderDesc_sides hbsd hside, hasd, ?_, ?_, ?_⟩
  · refine hkeysperm.nodup_iff.mpr ?_
    exact List.nodup_cons.mpr ⟨hnm, hnd⟩
  · refine hkeysperm.trans ?_
    refine (hperm.cons o.orderId).trans ?_
    have := (hallperm.map Order.orderId).symm
    simpa using this
  · intro ie hie o' ho' heq
    have ho2 : o' ∈ o :: allOrders b := hallperm.mem_iff.mp ho'
    rcases List.mem_append.mp hie with hie' | hie'
    · rcases List.mem_cons.mp ho2 with rfl | ho3
      · exfalso
        apply hnm
        rw [heq]
        exact List.mem_map_of_mem Prod.fst hie'
      · exact hdata ie hie' o' ho3 heq
    · have hie2 : ie = (o.orderId, (⟨o.orderType, o.side, o.price⟩ : OrderEntry)) := by
        simpa using hie'
      subst hie2
      rcases List.mem_cons.mp ho2 with rfl | ho3
      · exact ⟨rfl, rfl, rfl⟩
      · exfalso
        have heq' : o'.orderId = o.orderId := heq
        have : o.orderId ∈ (allOrders b).map Order.orderId := by
          rw [← heq']
          exact List.mem_map_of_mem Order.orderId ho3
        exact hnm (hperm.mem_iff.mpr this)

lemma insert_inv_sell {b : Book} {o : Order} (hInv : Inv b)
    (hfresh : containsIndex b.orders o.orderId = false) (hside : o.side = Side.Sell) :
    Inv { b with asks := insertOrderAsc b.asks o, orders := b.orders ++ [(o.orderId, ⟨o.orderType, o.side, o.price⟩)] } := by
  obtain ⟨hbs, has, hbn, han, hbsd, hasd, hnd, hperm, hdata⟩ := hInv
  have hnm : o.orderId ∉ b.orders.map Prod.fst := (containsIndex_false_iff _ _).mp hfresh
  have hkeysperm : ((b.orders ++ [(o.orderId, (⟨o.orderType, o.side, o.price⟩ : OrderEntry))]).map Prod.fst).Perm (o.orderId :: b.orders.map Prod.fst) := by
    rw [List.map_append]
    simp
  have hallperm : (allOrders { b with asks := insertOrderAsc b.asks o, orders := b.orders ++ [(o.orderId, ⟨o.orderType, o.side, o.price⟩)] }).Perm (o :: allOrders b) := by
    rw [allOrders_eq, allOrders_eq]
    refine ((sideOrders_insertOrderAsc b.asks o).append_left (sideOrders b.bids)).trans ?_
    exact List.perm_middle
  refine ⟨hbs, insertOrderAsc_sorted has, hbn, insertOrderAsc_nonempty han,
    hbsd, insertOrderAsc_sides hasd hside, ?_, ?_, ?_⟩
  · refine hkeysperm.nodup_iff.mpr ?_
    exact List.nodup_cons.mpr ⟨hnm, hnd⟩
  · refine hkeysperm.trans ?_
    refine (hperm.cons o.orderId).trans ?_
    have := (hallperm.map Order.orderId).symm
    simpa using this
  · intro ie hie o' ho' heq
    have ho2 : o' ∈ o :: allOrders b := hallperm.mem_iff.mp ho'
    rcases List.mem_append.mp hie with hie' | hie'
    · rcases List.mem_cons.mp ho2 with rfl | ho3
      · exfalso
        apply hnm
        rw [heq]
        exact List.mem_map_of_mem Prod.fst hie'
      · exact hdata ie hie' o' ho3 heq
    · have hie2 : ie = (o.orderId, (⟨o.orderType, o.side, o.price⟩ : OrderEntry)) := by
        simpa using hie'
      subst hie2
      rcases List.mem_cons.mp ho2 with rfl | ho3
      · exact ⟨rfl, rfl, rfl⟩
      · exfalso
        have heq' : o'.orderId = o.orderId := heq
        have : o.orderId ∈ (allOrders b).map Order.orderId := by
          rw [← heq']
          exact List.mem_map_of_mem Order.orderId ho3
        exact hnm (hperm.mem_iff.mpr this)

/-! ### Fill and matchStep characterization -/

lemma fill_ok {o : Order} {q : Nat} (h : q ≤ o.remainingQuantity) :
    o.Fill q = Except.ok { o with remainingQuantity := o.remainingQuantity - q } := by
  unfold Order.Fill
  rw [if_neg (by omega)]

lemma fill_error {o : Order} {q : Nat} (h : o.remainingQuantity < q) :
    o.Fill q = Except.error ("Order (" ++ toString o.orderId ++ ") cannot be filled for more than its remaining quantity") := by
  unfold Order.Fill
  rw [if_pos (by omega)]

lemma matchStep_eq {b : Book} {bp ap : Int} {bid ask : Order} {bt at2 : List Order}
    {br ar : List (Int × List Order)} {q : Nat}
    (hb : b.bids = (bp, bid :: bt) :: br) (ha : b.asks = (ap, ask :: at2) :: ar)
    (hcross : ap ≤ bp) (hq : q = min bid.remainingQuantity ask.remainingQuantity) :
    matchStep b = StepRes.step
      ⟨(if bid.remainingQuantity - q = 0 then (if bt.isEmpty then br else (bp, bt) :: br)
        else (bp, { bid with remainingQuantity := bid.remainingQuantity - q } :: bt) :: br),
       (if ask.remainingQuantity - q = 0 then (if at2.isEmpty then ar else (ap, at2) :: ar)
        else (ap, { ask with remainingQuantity := ask.remainingQuantity - q } :: at2) :: ar),
       (if ask.remainingQuantity - q = 0
        then eraseIndex (if bid.remainingQuantity - q = 0 then eraseIndex b.orders bid.orderId else b.orders) ask.orderId
        else (if bid.remainingQuantity - q = 0 then eraseIndex b.orders bid.orderId else b.orders))⟩
      ⟨⟨bid.orderId, bid.price, q⟩, ⟨ask.orderId, ask.price, q⟩⟩ := by
  subst hq
  have hineg : ¬ (bp < ap) := by omega
  have hfb := fill_ok (o := bid) (q := min bid.remainingQuantity ask.remainingQuantity)
    (Nat.min_le_left _ _)
  have hfa := fill_ok (o := ask) (q := min bid.remainingQuantity ask.remainingQuantity)
    (Nat.min_le_right _ _)
  unfold matchStep
  rw [hb, ha]
  simp only [if_neg hineg, hfb, hfa, Order.isFilled]
  by_cases h1 : bid.remainingQuantity - min bid.remainingQuantity ask.remainingQuantity = 0 <;>
    by_cases h2 : ask.remainingQuantity - min bid.remainingQuantity ask.remainingQuantity = 0 <;>
      simp [h1, h2]

lemma matchStep_exit_cases {b : Book} (h : matchStep b = StepRes.exit) :
    b.bids = [] ∨ b.asks = [] ∨
      (∃ bp bl br ap al ar, b.bids = (bp, bl) :: br ∧ b.asks = (ap, al) :: ar ∧ bp < ap) := by
  rcases hb : b.bids with _ | ⟨⟨bp, bl⟩, br⟩
  · exact Or.inl rfl
  rcases ha : b.asks with _ | ⟨⟨ap, al⟩, ar⟩
  · exact Or.inr (Or.inl rfl)
  by_cases hlt : bp < ap
  · exact Or.inr (Or.inr ⟨bp, bl, br, ap, al, ar, rfl, rfl, hlt⟩)
  exfalso
  rcases hbl : bl with _ | ⟨bid, bt⟩
  · unfold matchStep at h
    rw [hb, ha, hbl] at h
    simp [hlt] at h
  rcases hal : al with _ | ⟨ask, at2⟩
  · unfold matchStep at h
    rw [hb, ha, hbl, hal] at h
    simp [hlt] at h
  rw [hbl] at hb
  rw [hal] at ha
  rw [matchStep_eq hb ha (by omega) rfl] at h
  exact StepRes.noConfusion h

lemma matchStep_spin_cases {b : Book} (h : matchStep b = StepRes.spin) :
    (∃ bp br, b.bids = (bp, []) :: br) ∨ (∃ ap ar, b.asks = (ap, []) :: ar) := by
  rcases hb : b.bids with _ | ⟨⟨bp, bl⟩, br⟩
  · unfold matchStep at h
    rw [hb] at h
    exact StepRes.noConfusion h
  rcases ha : b.asks with _ | ⟨⟨ap, al⟩, ar⟩
  · unfold matchStep at h
    rw [hb, ha] at h
    exact StepRes.noConfusion h
  rcases hbl : bl with _ | ⟨bid, bt⟩
  · exact Or.inl ⟨bp, br, rfl⟩
  rcases hal : al with _ | ⟨ask, at2⟩
  · exact Or.inr ⟨ap, ar, rfl⟩
  by_cases hlt : bp < ap
  · unfold matchStep at h
    rw [hb, ha] at h
    simp [hlt] at h
  rw [hbl] at hb
  rw [hal] at ha
  rw [matchStep_eq hb ha (by omega) rfl] at h
  exact StepRes.noConfusion h

lemma matchStep_no_spin {b : Book} (hInv : Inv b) : matchStep b ≠ StepRes.spin := by
  intro h
  obtain ⟨-, -, hbn, han, -⟩ := hInv
  rcases matchStep_spin_cases h with ⟨bp, br, hb⟩ | ⟨ap, ar, ha⟩
  · exact hbn (bp, []) (by rw [hb]; exact List.mem_cons_self _ _) rfl
  · exact han (ap, []) (by rw [ha]; exact List.mem_cons_self _ _) rfl

/-! ### Inversion of a productive matching step -/

lemma sideOrders_if (p : Int) (l : List Order) (rest : List (Int × List Order)) :
    sideOrders (if l.isEmpty then rest else (p, l) :: rest) = l ++ sideOrders rest := by
  cases l with
  | nil => simp [sideOrders_cons]
  | cons o t => simp [sideOrders_cons]

lemma matchStep_step_cases {b b2 : Book} {t : Trade} (h : matchStep b = StepRes.step b2 t) :
    ∃ bp bid bt br ap ask at2 ar,
      b.bids = (bp, bid :: bt) :: br ∧ b.asks = (ap, ask :: at2) :: ar ∧ ap ≤ bp ∧
      b2.bids = (if bid.remainingQuantity - min bid.remainingQuantity ask.remainingQuantity = 0 then (if bt.isEmpty then br else (bp, bt) :: br) else (bp, { bid with remainingQuantity := bid.remainingQuantity - min bid.remainingQuantity ask.remainingQuantity } :: bt) :: br) ∧
      b2.asks = (if ask.remainingQuantity - min bid.remainingQuantity ask.remainingQuantity = 0 then (if at2.isEmpty then ar else (ap, at2) :: ar) else (ap, { ask with remainingQuantity := ask.remainingQuantity - min bid.remainingQuantity ask.remainingQuantity } :: at2) :: ar) ∧
      b2.orders = (if ask.remainingQuantity - min bid.remainingQuantity ask.remainingQuantity = 0 then eraseIndex (if bid.remainingQuantity - min bid.remainingQuantity ask.remainingQuantity = 0 then eraseIndex b.orders bid.orderId else b.orders) ask.orderId else (if bid.remainingQuantity - min bid.remainingQuantity ask.remainingQuantity = 0 then eraseIndex b.orders bid.orderId else b.orders)) ∧
      t = ⟨⟨bid.orderId, bid.price, min bid.remainingQuantity ask.remainingQuantity⟩, ⟨ask.orderId, ask.price, min bid.remainingQuantity ask.remainingQuantity⟩⟩ := by
  rcases hb : b.bids with _ | ⟨⟨bp, bl⟩, br⟩
  · unfold matchStep at h
    rw [hb] at h
    exact StepRes.noConfusion h
  rcases ha : b.asks with _ | ⟨⟨ap, al⟩, ar⟩
  · unfold matchStep at h
    rw [hb, ha] at h
    exact StepRes.noConfusion h
  by_cases hlt : bp < ap
  · exfalso
    unfold matchStep at h
    rw [hb, ha] at h
    simp [hlt] at h
  rcases hbl : bl with _ | ⟨bid, bt⟩
  · exfalso
    unfold matchStep at h
    rw [hb, ha, hbl] at h
    simp [hlt] at h
  rcases hal : al with _ | ⟨ask, at2⟩
  · exfalso
    unfold matchStep at h
    rw [hb, ha, hbl, hal] at h
    simp [hlt] at h
  rw [hbl] at hb
  rw [hal] at ha
  rw [matchStep_eq hb ha (by omega) rfl] at h
  have h1 := (StepRes.step.injEq _ _ _ _).mp h
  refine ⟨bp, bid, bt, br, ap, ask, at2, ar, rfl, rfl, by omega, ?_, ?_, ?_, h1.2.symm⟩
  · rw [← h1.1]
  · rw [← h1.1]
  · rw [← h1.1]

/-! ### A productive matching step preserves the invariants -/

lemma levels_if_sublist (p : Int) (l : List Order) (rest : List (Int × List Order)) :
    ((if l.isEmpty then rest else (p, l) :: rest).map Prod.fst).Sublist
      (p :: rest.map Prod.fst) := by
  cases l with
  | nil => simp
  | cons o t => simp

lemma mem_levels_if {p : Int} {l : List Order} {rest : List (Int × List Order)}
    {pl : Int × List Order} (h : pl ∈ (if l.isEmpty then rest else (p, l) :: rest)) :
    (pl = (p, l) ∧ l ≠ []) ∨ pl ∈ rest := by
  cases l with
  | nil =>
    simp at h
    exact Or.inr h
  | cons o t =>
    simp at h
    rcases h with h | h
    · exact Or.inl ⟨by simp [h], by simp⟩
    · exact Or.inr h

lemma step_master {b b2 : Book} {t : Trade} (hInv : Inv b) (h : matchStep b = StepRes.step b2 t) :
    Inv b2 ∧ totalOrders b2 < totalOrders b ∧
    (b2.orders.map Prod.fst).Sublist (b.orders.map Prod.fst) ∧
    (b2.bids.map Prod.fst).Sublist (b.bids.map Prod.fst) ∧
    (b2.asks.map Prod.fst).Sublist (b.asks.map Prod.fst) ∧
    SideC b.bids b2.bids ∧ SideC b.asks b2.asks := by
  obtain ⟨bp, bid, bt, br, ap, ask, at2, ar, hb, ha, hpa, hb2b, hb2a, hb2o, ht⟩ :=
    matchStep_step_cases h
  obtain ⟨hbs, has, hbn, han, hbsd, hasd, hnd, hperm, hdata⟩ := hInv
  set q := min bid.remainingQuantity ask.remainingQuantity with hq
  have hqb : q ≤ bid.remainingQuantity := Nat.min_le_left _ _
  have hqa : q ≤ ask.remainingQuantity := Nat.min_le_right _ _
  have hminor : bid.remainingQuantity - q = 0 ∨ ask.remainingQuantity - q = 0 := by omega
  have hids : (allOrders b).map Order.orderId =
      bid.orderId :: (((bt ++ sideOrders br).map Order.orderId) ++
        (ask.orderId :: ((at2 ++ sideOrders ar).map Order.orderId))) := by
    rw [allOrders_eq, hb, ha, sideOrders_cons, sideOrders_cons]
    simp
  have hmemb : bid ∈ allOrders b := by
    rw [allOrders_eq, hb, sideOrders_cons]
    simp
  have hmema : ask ∈ allOrders b := by
    rw [allOrders_eq, ha, sideOrders_cons]
    simp
  have hbidkey : bid.orderId ∈ b.orders.map Prod.fst :=
    hperm.mem_iff.mpr (by rw [hids]; simp)
  have haskkey : ask.orderId ∈ b.orders.map Prod.fst :=
    hperm.mem_iff.mpr (by rw [hids]; simp)
  have hXsub : ∀ o' : Order, o' ∈ (bt ++ sideOrders br) ++ (at2 ++ sideOrders ar) →
      o' ∈ allOrders b := by
    intro o' ho'
    rw [allOrders_eq, hb, ha, sideOrders_cons, sideOrders_cons]
    simp at ho' ⊢
    tauto
  -- the two sides of the new book, level-membership facts
  have hmemlb : ∀ pl ∈ b2.bids, (pl = (bp, bt) ∧ bt ≠ []) ∨
      (bid.remainingQuantity - q ≠ 0 ∧
        pl = (bp, { bid with remainingQuantity := bid.remainingQuantity - q } :: bt)) ∨
      pl ∈ br := by
    intro pl hpl
    rw [hb2b] at hpl
    by_cases h1 : bid.remainingQuantity - q = 0
    · rw [if_pos h1] at hpl
      rcases mem_levels_if hpl with ⟨h2, h3⟩ | h2
      · exact Or.inl ⟨h2, h3⟩
      · exact Or.inr (Or.inr h2)
    · rw [if_neg h1] at hpl
      rcases List.mem_cons.mp hpl with h2 | h2
      · exact Or.inr (Or.inl ⟨h1, h2⟩)
      · exact Or.inr (Or.inr h2)
  have hmemla : ∀ pl ∈ b2.asks, (pl = (ap, at2) ∧ at2 ≠ []) ∨
      (ask.remainingQuantity - q ≠ 0 ∧
        pl = (ap, { ask with remainingQuantity := ask.remainingQuantity - q } :: at2)) ∨
      pl ∈ ar := by
    intro pl hpl
    rw [hb2a] at hpl
    by_cases h1 : ask.remainingQuantity - q = 0
    · rw [if_pos h1] at hpl
      rcases mem_levels_if hpl with ⟨h2, h3⟩ | h2
      · exact Or.inl ⟨h2, h3⟩
      · exact Or.inr (Or.inr h2)
    · rw [if_neg h1] at hpl
      rcases List.mem_cons.mp hpl with h2 | h2
      · exact Or.inr (Or.inl ⟨h1, h2⟩)
      · exact Or.inr (Or.inr h2)
  have hsubb : (b2.bids.map Prod.fst).Sublist (b.bids.map Prod.fst) := by
    rw [hb2b, hb]
    by_cases h1 : bid.remainingQuantity - q = 0
    · rw [if_pos h1]
      simpa using levels_if_sublist bp bt br
    · rw [if_neg h1]
      simp
  have hsuba : (b2.asks.map Prod.fst).Sublist (b.asks.map Prod.fst) := by
    rw [hb2a, ha]
    by_cases h1 : ask.remainingQuantity - q = 0
    · rw [if_pos h1]
      simpa using levels_if_sublist ap at2 ar
    · rw [if_neg h1]
      simp
  have hsidecb : SideC b.bids b2.bids := by
    by_cases h1 : bid.remainingQuantity - q = 0
    · rw [hb2b, if_pos h1]
      by_cases hbt : bt.isEmpty
      · rw [if_pos hbt]
        exact ⟨[(bp, bid :: bt)], br, by rw [hb]; rfl, Or.inl rfl⟩
      · rw [if_neg hbt]
        exact ⟨[], b.bids, by simp, Or.inr ⟨bp, bid :: bt, bt, br, hb,
          rfl, ⟨[bid], Or.inl rfl⟩⟩⟩
    · rw [hb2b, if_neg h1]
      exact ⟨[], b.bids, by simp, Or.inr ⟨bp, bid :: bt,
        { bid with remainingQuantity := bid.remainingQuantity - q } :: bt, br, hb, rfl,
        ⟨[], Or.inr ⟨bid, bt, q, hqb, rfl, rfl⟩⟩⟩⟩
  have hsideca : SideC b.asks b2.asks := by
    by_cases h1 : ask.remainingQuantity - q = 0
    · rw [hb2a, if_pos h1]
      by_cases hat : at2.isEmpty
      · rw [if_pos hat]
        exact ⟨[(ap, ask :: at2)], ar, by rw [ha]; rfl, Or.inl rfl⟩
      · rw [if_neg hat]
        exact ⟨[], b.asks, by simp, Or.inr ⟨ap, ask :: at2, at2, ar, ha,
          rfl, ⟨[ask], Or.inl rfl⟩⟩⟩
    · rw [hb2a, if_neg h1]
      exact ⟨[], b.asks, by simp, Or.inr ⟨ap, ask :: at2,
        { ask with remainingQuantity := ask.remainingQuantity - q } :: at2, ar, ha, rfl,
        ⟨[], Or.inr ⟨ask, at2, q, hqa, rfl, rfl⟩⟩⟩⟩
  -- invariant components that do not depend on which side filled
  have hc3 : ∀ pl ∈ b2.bids, pl.2 ≠ [] := by
    intro pl hpl
    rcases hmemlb pl hpl with ⟨rfl, h3⟩ | ⟨h2, rfl⟩ | h2
    · exact h3
    · simp
    · exact hbn pl (by rw [hb]; exact List.mem_cons_of_mem _ h2)
  have hc4 : ∀ pl ∈ b2.asks, pl.2 ≠ [] := by
    intro pl hpl
    rcases hmemla pl hpl with ⟨rfl, h3⟩ | ⟨h2, rfl⟩ | h2
    · exact h3
    · simp
    · exact han pl (by rw [ha]; exact List.mem_cons_of_mem _ h2)
  have hc5 : ∀ pl ∈ b2.bids, ∀ o' ∈ pl.2, o'.side = Side.Buy ∧ o'.price = pl.1 := by
    intro pl hpl o' ho'
    rcases hmemlb pl hpl with ⟨rfl, h3⟩ | ⟨h2, rfl⟩ | h2
    · have := hbsd (bp, bid :: bt) (by rw [hb]; exact List.mem_cons_self _ _) o'
        (List.mem_cons_of_mem _ ho')
      exact this
    · rcases List.mem_cons.mp ho' with rfl | h3
      · have := hbsd (bp, bid :: bt) (by rw [hb]; exact List.mem_cons_self _ _) bid
          (List.mem_cons_self _ _)
        exact ⟨this.1, this.2⟩
      · exact hbsd (bp, bid :: bt) (by rw [hb]; exact List.mem_cons_self _ _) o'
          (List.mem_cons_of_mem _ h3)
    · exact hbsd pl (by rw [hb]; exact List.mem_cons_of_mem _ h2) o' ho'
  have hc6 : ∀ pl ∈ b2.asks, ∀ o' ∈ pl.2, o'.side = Side.Sell ∧ o'.price = pl.1 := by
    intro pl hpl o' ho'
    rcases hmemla pl hpl with ⟨rfl, h3⟩ | ⟨h2, rfl⟩ | h2
    · have := hasd (ap, ask :: at2) (by rw [ha]; exact List.mem_cons_self _ _) o'
        (List.mem_cons_of_mem _ ho')
      exact this
    · rcases List.mem_cons.mp ho' with rfl | h3
      · have := hasd (ap, ask :: at2) (by rw [ha]; exact List.mem_cons_self _ _) ask
          (List.mem_cons_self _ _)
        exact ⟨this.1, this.2⟩
      · exact hasd (ap, ask :: at2) (by rw [ha]; exact List.mem_cons_self _ _) o'
          (List.mem_cons_of_mem _ h3)
    · exact hasd pl (by rw [ha]; exact List.mem_cons_of_mem _ h2) o' ho'
  have hmem2 : ∀ o' ∈ allOrders b2,
      o' = { bid with remainingQuantity := bid.remainingQuantity - q } ∨
      o' = { ask with remainingQuantity := ask.remainingQuantity - q } ∨
      o' ∈ allOrders b := by
    intro o' ho'
    rw [allOrders_eq] at ho'
    rcases List.mem_append.mp ho' with hs | hs
    · obtain ⟨pl, hpl, hoq⟩ := mem_sideOrders.mp hs
      rcases hmemlb pl hpl with ⟨rfl, h3⟩ | ⟨h2, rfl⟩ | h2
      · refine Or.inr (Or.inr (hXsub o' ?_))
        simp at hoq ⊢
        tauto
      · simp at hoq
        rcases hoq with rfl | h3
        · exact Or.inl rfl
        · refine Or.inr (Or.inr (hXsub o' ?_))
          simp
          tauto
      · refine Or.inr (Or.inr ?_)
        rw [allOrders_eq, hb, sideOrders_cons]
        refine List.mem_append.mpr (Or.inl ?_)
        refine List.mem_append.mpr (Or.inr ?_)
        exact mem_sideOrders.mpr ⟨pl, h2, hoq⟩
    · obtain ⟨pl, hpl, hoq⟩ := mem_sideOrders.mp hs
      rcases hmemla pl hpl with ⟨rfl, h3⟩ | ⟨h2, rfl⟩ | h2
      · refine Or.inr (Or.inr (hXsub o' ?_))
        simp at hoq ⊢
        tauto
      · simp at hoq
        rcases hoq with rfl | h3
        · exact Or.inr (Or.inl rfl)
        · refine Or.inr (Or.inr (hXsub o' ?_))
          simp
          tauto
      · refine Or.inr (Or.inr ?_)
        rw [allOrders_eq, ha, sideOrders_cons]
        refine List.mem_append.mpr (Or.inr ?_)
        refine List.mem_append.mpr (Or.inr ?_)
        exact mem_sideOrders.mpr ⟨pl, h2, hoq⟩
  have hc9 : ∀ ie ∈ b2.orders, ∀ o' ∈ allOrders b2, o'.orderId = ie.1 →
      o'.orderType = ie.2.orderType ∧ o'.side = ie.2.side ∧ o'.price = ie.2.price := by
    have hosub : b2.orders.Sublist b.orders := by
      rw [hb2o]
      by_cases h1 : bid.remainingQuantity - q = 0 <;>
        by_cases h2 : ask.remainingQuantity - q = 0 <;>
          simp [h1, h2] <;>
            first
              | exact (eraseIndex_sublist _ _).trans (eraseIndex_sublist _ _)
              | exact eraseIndex_sublist _ _
    intro ie hie o' ho' heq
    rcases hmem2 o' ho' with rfl | rfl | h3
    · have heq' : bid.orderId = ie.1 := heq
      exact hdata ie (hosub.subset hie) bid hmemb heq'
    · have heq' : ask.orderId = ie.1 := heq
      exact hdata ie (hosub.subset hie) ask hmema heq'
    · exact hdata ie (hosub.subset hie) o' h3 heq
  have hc1 : List.Pairwise (· > ·) (b2.bids.map Prod.fst) := hbs.sublist hsubb
  have hc2 : List.Pairwise (· < ·) (b2.asks.map Prod.fst) := has.sublist hsuba
  -- index, permutation and cardinality: split on which side filled
  have hids2X : (sideOrders b2.bids).map Order.orderId =
      (if bid.remainingQuantity - q = 0 then ([] : List Nat) else [bid.orderId]) ++
        (bt ++ sideOrders br).map Order.orderId := by
    rw [hb2b]
    by_cases h1 : bid.remainingQuantity - q = 0
    · rw [if_pos h1, if_pos h1, sideOrders_if]
      simp
    · rw [if_neg h1, if_neg h1, sideOrders_cons]
      simp
  have hids2Y : (sideOrders b2.asks).map Order.orderId =
      (if ask.remainingQuantity - q = 0 then ([] : List Nat) else [ask.orderId]) ++
        (at2 ++ sideOrders ar).map Order.orderId := by
    rw [hb2a]
    by_cases h1 : ask.remainingQuantity - q = 0
    · rw [if_pos h1, if_pos h1, sideOrders_if]
      simp
    · rw [if_neg h1, if_neg h1, sideOrders_cons]
      simp
  have hbane : bid.orderId ≠ ask.orderId := by
    intro he
    have hallnd : ((allOrders b).map Order.orderId).Nodup := hperm.nodup_iff.mp hnd
    rw [hids] at hallnd
    have := List.nodup_cons.mp hallnd
    exact this.1 (by rw [he]; simp)
  have hkper : (b2.orders.map Prod.fst).Perm ((allOrders b2).map Order.orderId) ∧
      (b2.orders.map Prod.fst).Nodup ∧
      (b2.orders.map Prod.fst).Sublist (b.orders.map Prod.fst) ∧
      totalOrders b2 < totalOrders b := by
    have hlen : totalOrders b = ((allOrders b).map Order.orderId).length := by
      simp [totalOrders]
    have hlen2 : totalOrders b2 = ((allOrders b2).map Order.orderId).length := by
      simp [totalOrders]
    have hids2 : (allOrders b2).map Order.orderId =
        ((if bid.remainingQuantity - q = 0 then ([] : List Nat) else [bid.orderId]) ++
          (bt ++ sideOrders br).map Order.orderId) ++
        ((if ask.remainingQuantity - q = 0 then ([] : List Nat) else [ask.orderId]) ++
          (at2 ++ sideOrders ar).map Order.orderId) := by
      rw [allOrders_eq, List.map_append, hids2X, hids2Y]
    by_cases h1 : bid.remainingQuantity - q = 0 <;>
      by_cases h2 : ask.remainingQuantity - q = 0
    · -- both filled
      have ho2 : b2.orders = eraseIndex (eraseIndex b.orders bid.orderId) ask.orderId := by
        rw [hb2o, if_pos h1, if_pos h2]
      have hk2 : b2.orders.map Prod.fst =
          ((b.orders.map Prod.fst).erase bid.orderId).erase ask.orderId := by
        rw [ho2, eraseIndex_map_fst, eraseIndex_map_fst]
      have hP1 : ((allOrders b).map Order.orderId).Perm
          (bid.orderId :: ask.orderId :: (allOrders b2).map Order.orderId) := by
        rw [hids, hids2, if_pos h1, if_pos h2]
        simp only [List.nil_append]
        exact (List.perm_middle).cons bid.orderId
      refine ⟨?_, ?_, ?_, ?_⟩
      · rw [hk2]
        have e1 := (hperm.trans hP1).erase bid.orderId
        rw [List.erase_cons_head] at e1
        have e2 := e1.erase ask.orderId
        rw [List.erase_cons_head] at e2
        exact e2
      · rw [hk2]
        exact ((hnd.erase _).erase _)
      · rw [hk2]
        exact (List.erase_sublist _ _).trans (List.erase_sublist _ _)
      · rw [hlen, hlen2, hP1.length_eq]
        simp
        omega
    · -- bid filled only
      have ho2 : b2.orders = eraseIndex b.orders bid.orderId := by
        rw [hb2o, if_neg h2, if_pos h1]
      have hk2 : b2.orders.map Prod.fst = (b.orders.map Prod.fst).erase bid.orderId := by
        rw [ho2, eraseIndex_map_fst]
      have hP1 : ((allOrders b).map Order.orderId).Perm
          (bid.orderId :: (allOrders b2).map Order.orderId) := by
        rw [hids, hids2, if_pos h1, if_neg h2]
        simp
      refine ⟨?_, ?_, ?_, ?_⟩
      · rw [hk2]
        have e1 := (hperm.trans hP1).erase bid.orderId
        rw [List.erase_cons_head] at e1
        exact e1
      · rw [hk2]
        exact hnd.erase _
      · rw [hk2]
        exact List.erase_sublist _ _
      · rw [hlen, hlen2, hP1.length_eq]
        simp
    · -- ask filled only
      have ho2 : b2.orders = eraseIndex b.orders ask.orderId := by
        rw [hb2o, if_pos h2, if_neg h1]
      have hk2 : b2.orders.map Prod.fst = (b.orders.map Prod.fst).erase ask.orderId := by
        rw [ho2, eraseIndex_map_fst]
      have hP1 : ((allOrders b).map Order.orderId).Perm
          (ask.orderId :: (allOrders b2).map Order.orderId) := by
        rw [hids, hids2, if_neg h1, if_pos h2]
        simp only [List.nil_append, List.singleton_append]
        have hmid : ((bid.orderId :: (bt ++ sideOrders br).map Order.orderId) ++ ask.orderId :: (at2 ++ sideOrders ar).map Order.orderId).Perm (ask.orderId :: ((bid.orderId :: (bt ++ sideOrders br).map Order.orderId) ++ (at2 ++ sideOrders ar).map Order.orderId)) :=
          List.perm_middle
        refine List.Perm.trans ?_ hmid
        simp
      refine ⟨?_, ?_, ?_, ?_⟩
      · rw [hk2]
        have e1 := (hperm.trans hP1).erase ask.orderId
        rw [List.erase_cons_head] at e1
        exact e1
      · rw [hk2]
        exact hnd.erase _
      · rw [hk2]
        exact List.erase_sublist _ _
      · rw [hlen, hlen2, hP1.length_eq]
        simp
    · exact absurd hminor (by simp [h1, h2])
  exact ⟨⟨hc1, hc2, hc3, hc4, hc5, hc6, hkper.2.1, hkper.1, hc9⟩,
    hkper.2.2.2, hkper.2.2.1, hsubb, hsuba, hsidecb, hsideca⟩

/-! ### The consumption relations compose -/

lemma QueueC_refl (l : List Order) : QueueC l l := ⟨[], Or.inl rfl⟩

lemma QueueC_trans {a b c : List Order} (h1 : QueueC a b) (h2 : QueueC b c) : QueueC a c := by
  obtain ⟨d1, h1⟩ := h1
  obtain ⟨d2, h2⟩ := h2
  rcases h1 with h1 | ⟨o, t, q1, hq1, ha, hbeq⟩
  · rcases h2 with h2 | ⟨o, t, q2, hq2, hb, hceq⟩
    · exact ⟨d1 ++ d2, Or.inl (by rw [h1, h2, List.append_assoc])⟩
    · exact ⟨d1 ++ d2, Or.inr ⟨o, t, q2, hq2, by rw [h1, hb, List.append_assoc], hceq⟩⟩
  · subst hbeq
    rcases h2 with h2 | ⟨p, s, q2, hq2, hb2, hceq⟩
    · cases d2 with
      | nil =>
        simp at h2
        subst h2
        exact ⟨d1, Or.inr ⟨o, t, q1, hq1, ha, rfl⟩⟩
      | cons x d2' =>
        rw [List.cons_append] at h2
        injection h2 with hx ht
        subst hx
        exact ⟨d1 ++ o :: d2', Or.inl (by rw [ha, ht]; simp)⟩
    · cases d2 with
      | nil =>
        simp at hb2
        obtain ⟨hp, hs⟩ := hb2
        subst hs
        refine ⟨d1, Or.inr ⟨o, t, q1 + q2, ?_, ha, ?_⟩⟩
        · rw [← hp] at hq2
          simp at hq2
          omega
        · rw [hceq, ← hp]
          simp [Nat.sub_sub]
      | cons x d2' =>
        rw [List.cons_append] at hb2
        injection hb2 with hx ht
        subst hx
        refine ⟨d1 ++ o :: d2', Or.inr ⟨p, s, q2, hq2, ?_, hceq⟩⟩
        rw [ha, ht]
        simp

lemma SideC_refl (ls : List (Int × List Order)) : SideC ls ls := ⟨[], ls, rfl, Or.inl rfl⟩

lemma SideC_trans {a b c : List (Int × List Order)} (h1 : SideC a b) (h2 : SideC b c) :
    SideC a c := by
  obtain ⟨d1, r1, ha, h1⟩ := h1
  obtain ⟨d2, r2, hb, h2⟩ := h2
  rcases h1 with h1 | ⟨p, qq, q', tt, hr1, hbeq, hqc⟩
  · subst h1
    rcases h2 with h2 | ⟨p, qq, q', tt, hr2, hceq, hqc⟩
    · exact ⟨d1 ++ d2, r2, by rw [ha, hb, List.append_assoc], Or.inl h2⟩
    · exact ⟨d1 ++ d2, r2, by rw [ha, hb, List.append_assoc],
        Or.inr ⟨p, qq, q', tt, hr2, hceq, hqc⟩⟩
  · subst hbeq
    subst hr1
    cases d2 with
    | nil =>
      simp at hb
      subst hb
      rcases h2 with h2 | ⟨p2, q2, q2', t2, hr2, hceq, hqc2⟩
      · subst h2
        exact ⟨d1, (p, qq) :: tt, ha, Or.inr ⟨p, qq, q', tt, rfl, rfl, hqc⟩⟩
      · injection hr2 with hx ht
        injection hx with hp hq2e
        subst hp
        subst ht
        subst hq2e
        exact ⟨d1, (p, qq) :: tt, ha,
          Or.inr ⟨p, qq, q2', tt, rfl, hceq, QueueC_trans hqc hqc2⟩⟩
    | cons x d2' =>
      rw [List.cons_append] at hb
      injection hb with hx ht
      subst hx
      subst ht
      rcases h2 with h2 | ⟨p2, q2, q2', t2, hr2, hceq, hqc2⟩
      · subst h2
        exact ⟨d1 ++ (p, qq) :: d2', c, by rw [ha]; simp, Or.inl rfl⟩
      · exact ⟨d1 ++ (p, qq) :: d2', r2, by rw [ha]; simp,
          Or.inr ⟨p2, q2, q2', t2, hr2, hceq, hqc2⟩⟩

/-! ### The matching loop -/

lemma matchOrdersGo_succ (fuel : Nat) (b : Book) (acc : List Trade) :
    matchOrdersGo (fuel + 1) b acc =
      match matchStep b with
      | StepRes.exit => (b, acc.reverse)
      | StepRes.spin => matchOrdersGo fuel b acc
      | StepRes.step b2 t => matchOrdersGo fuel b2 (t :: acc) := rfl

lemma uncrossed_of_exit {b : Book} (h : matchStep b = StepRes.exit) : Uncrossed b := by
  unfold Uncrossed
  rcases matchStep_exit_cases h with h1 | h1 | ⟨bp, bl, br, ap, al, ar, hbb, hba, hlt⟩
  · rw [h1]
    cases b.asks <;> simp
  · rw [h1]
    cases b.bids <;> simp
  · rw [hbb, hba]
    exact hlt

lemma matchOrdersGo_master (fuel : Nat) (b : Book) (acc : List Trade)
    (hInv : Inv b) (hfuel : totalOrders b < fuel) :
    Inv (matchOrdersGo fuel b acc).1 ∧ Uncrossed (matchOrdersGo fuel b acc).1 ∧
    ((matchOrdersGo fuel b acc).1.orders.map Prod.fst).Sublist (b.orders.map Prod.fst) ∧
    SideC b.bids (matchOrdersGo fuel b acc).1.bids ∧
    SideC b.asks (matchOrdersGo fuel b acc).1.asks := by
  induction fuel generalizing b acc with
  | zero => omega
  | succ fuel ih =>
    cases hs : matchStep b with
    | exit =>
      rw [show matchOrdersGo (fuel + 1) b acc = (b, acc.reverse) by
        rw [matchOrdersGo_succ, hs]]
      exact ⟨hInv, uncrossed_of_exit hs, List.Sublist.refl _, SideC_refl _, SideC_refl _⟩
    | spin => exact absurd hs (matchStep_no_spin hInv)
    | step b2 t =>
      obtain ⟨hInv2, hlt, hsubo, hsubb, hsuba, hscb, hsca⟩ := step_master hInv hs
      have ih2 := ih b2 (t :: acc) hInv2 (by omega)
      rw [show matchOrdersGo (fuel + 1) b acc = matchOrdersGo fuel b2 (t :: acc) by
        rw [matchOrdersGo_succ, hs]]
      exact ⟨ih2.1, ih2.2.1, ih2.2.2.1.trans hsubo,
        SideC_trans hscb ih2.2.2.2.1, SideC_trans hsca ih2.2.2.2.2⟩

/-! ### Cancel characterizations and the FillAndKill cleanup -/

lemma cancel_orders_sublist (b : Book) (orderId : Nat) :
    ((CancelOrder b orderId).orders.map Prod.fst).Sublist (b.orders.map Prod.fst) := by
  cases hl : lookupIndex b.orders orderId with
  | none => simp [CancelOrder, hl]
  | some e =>
    by_cases hside : e.side = Side.Sell
    · rw [show (CancelOrder b orderId).orders = eraseIndex b.orders orderId by
        simp [CancelOrder, hl, hside]]
      rw [eraseIndex_map_fst]
      exact List.erase_sublist _ _
    · rw [show (CancelOrder b orderId).orders = eraseIndex b.orders orderId by
        simp [CancelOrder, hl, hside]]
      rw [eraseIndex_map_fst]
      exact List.erase_sublist _ _

lemma cancel_keys_sublists (b : Book) (orderId : Nat) :
    ((CancelOrder b orderId).bids.map Prod.fst).Sublist (b.bids.map Prod.fst) ∧
    ((CancelOrder b orderId).asks.map Prod.fst).Sublist (b.asks.map Prod.fst) := by
  cases hl : lookupIndex b.orders orderId with
  | none => simp [CancelOrder, hl]
  | some e =>
    by_cases hside : e.side = Side.Sell
    · constructor
      · rw [show (CancelOrder b orderId).bids = b.bids by simp [CancelOrder, hl, hside]]
      · rw [show (CancelOrder b orderId).asks = removeFromLevels b.asks e.price orderId by
          simp [CancelOrder, hl, hside]]
        exact removeFromLevels_map_fst_sublist _ _ _
    · constructor
      · rw [show (CancelOrder b orderId).bids = removeFromLevels b.bids e.price orderId by
          simp [CancelOrder, hl, hside]]
        exact removeFromLevels_map_fst_sublist _ _ _
      · rw [show (CancelOrder b orderId).asks = b.asks by simp [CancelOrder, hl, hside]]

lemma cancel_uncrossed {b : Book} (hInv : Inv b) (hU : Uncrossed b) (orderId : Nat) :
    Uncrossed (CancelOrder b orderId) := by
  obtain ⟨hbs, has, -⟩ := hInv
  exact uncrossed_mono hbs has hU (cancel_keys_sublists b orderId).1
    (cancel_keys_sublists b orderId).2

lemma cancel_front_bid {b : Book} (hInv : Inv b) {p : Int} {o : Order} {t : List Order}
    {br : List (Int × List Order)} (hb : b.bids = (p, o :: t) :: br) :
    CancelOrder b o.orderId =
      { b with bids := if t.isEmpty then br else (p, t) :: br,
               orders := eraseIndex b.orders o.orderId } := by
  obtain ⟨hbs, has, hbn, han, hbsd, hasd, hnd, hperm, hdata⟩ := hInv
  have hmem : o ∈ allOrders b := by
    rw [allOrders_eq, hb, sideOrders_cons]
    simp
  have hkey : o.orderId ∈ b.orders.map Prod.fst :=
    hperm.mem_iff.mpr (List.mem_map_of_mem Order.orderId hmem)
  obtain ⟨e, hl⟩ := lookupIndex_isSome_of_mem hkey
  have hfields := hdata (o.orderId, e) (lookupIndex_some_mem hl) o hmem rfl
  have hsd := hbsd (p, o :: t) (by rw [hb]; exact List.mem_cons_self _ _) o
    (List.mem_cons_self _ _)
  have hside : e.side = Side.Buy := by rw [← hfields.2.1, hsd.1]
  have hprice : e.price = p := by rw [← hfields.2.2, hsd.2]
  have hns : ¬ (e.side = Side.Sell) := by rw [hside]; simp
  unfold CancelOrder
  rw [hl]
  simp only [hns, if_neg hns, hprice]
  have hrm : removeFromLevels b.bids p o.orderId =
      if t.isEmpty then br else (p, t) :: br := by
    rw [hb, removeFromLevels_head]
    simp [removeOrder]
  rw [hrm]
  simp

lemma cancel_front_ask {b : Book} (hInv : Inv b) {p : Int} {o : Order} {t : List Order}
    {ar : List (Int × List Order)} (ha : b.asks = (p, o :: t) :: ar) :
    CancelOrder b o.orderId =
      { b with asks := if t.isEmpty then ar else (p, t) :: ar,
               orders := eraseIndex b.orders o.orderId } := by
  obtain ⟨hbs, has, hbn, han, hbsd, hasd, hnd, hperm, hdata⟩ := hInv
  have hmem : o ∈ allOrders b := by
    rw [allOrders_eq, ha, sideOrders_cons]
    simp
  have hkey : o.orderId ∈ b.orders.map Prod.fst :=
    hperm.mem_iff.mpr (List.mem_map_of_mem Order.orderId hmem)
  obtain ⟨e, hl⟩ := lookupIndex_isSome_of_mem hkey
  have hfields := hdata (o.orderId, e) (lookupIndex_some_mem hl) o hmem rfl
  have hsd := hasd (p, o :: t) (by rw [ha]; exact List.mem_cons_self _ _) o
    (List.mem_cons_self _ _)
  have hside : e.side = Side.Sell := by rw [← hfields.2.1, hsd.1]
  have hprice : e.price = p := by rw [← hfields.2.2, hsd.2]
  unfold CancelOrder
  rw [hl]
  simp only [hside, if_pos hside, hprice]
  have hrm : removeFromLevels b.asks p o.orderId =
      if t.isEmpty then ar else (p, t) :: ar := by
    rw [ha, removeFromLevels_head]
    simp [removeOrder]
  rw [hrm]
  simp

lemma fakCleanupBids_cases (b : Book) :
    fakCleanupBids b = b ∨
    ∃ p o t br, b.bids = (p, o :: t) :: br ∧ o.orderType = OrderType.FillAndKill ∧
      fakCleanupBids b = CancelOrder b o.orderId := by
  unfold fakCleanupBids
  rcases hb : b.bids with _ | ⟨⟨p, bl⟩, br⟩
  · exact Or.inl rfl
  rcases bl with _ | ⟨o, t⟩
  · exact Or.inl rfl
  by_cases hfk : o.orderType = OrderType.FillAndKill
  · refine Or.inr ⟨p, o, t, br, rfl, hfk, ?_⟩
    simp [hfk]
  · exact Or.inl (by simp [hfk])

lemma fakCleanupAsks_cases (b : Book) :
    fakCleanupAsks b = b ∨
    ∃ p o t ar, b.asks = (p, o :: t) :: ar ∧ o.orderType = OrderType.FillAndKill ∧
      fakCleanupAsks b = CancelOrder b o.orderId := by
  unfold fakCleanupAsks
  rcases ha : b.asks with _ | ⟨⟨p, al⟩, ar⟩
  · exact Or.inl rfl
  rcases al with _ | ⟨o, t⟩
  · exact Or.inl rfl
  by_cases hfk : o.orderType = OrderType.FillAndKill
  · refine Or.inr ⟨p, o, t, ar, rfl, hfk, ?_⟩
    simp [hfk]
  · exact Or.inl (by simp [hfk])

lemma fakCleanupBids_master {b : Book} (hInv : Inv b) (hU : Uncrossed b) :
    Inv (fakCleanupBids b) ∧ Uncrossed (fakCleanupBids b) ∧
    ((fakCleanupBids b).orders.map Prod.fst).Sublist (b.orders.map Prod.fst) ∧
    SideC b.bids (fakCleanupBids b).bids ∧ SideC b.asks (fakCleanupBids b).asks := by
  rcases fakCleanupBids_cases b with he | ⟨p, o, t, br, hb, hfk, he⟩
  · rw [he]
    exact ⟨hInv, hU, List.Sublist.refl _, SideC_refl _, SideC_refl _⟩
  · rw [he]
    have hch := cancel_front_bid hInv hb
    refine ⟨cancel_inv o.orderId hInv, cancel_uncrossed hInv hU o.orderId,
      cancel_orders_sublist b o.orderId, ?_, ?_⟩
    · rw [hch]
      by_cases ht : t.isEmpty
      · exact ⟨[(p, o :: t)], br, by rw [hb]; rfl, Or.inl (by simp [ht])⟩
      · exact ⟨[], b.bids, rfl, Or.inr ⟨p, o :: t, t, br, hb, by simp [ht],
          ⟨[o], Or.inl rfl⟩⟩⟩
    · rw [hch]
      exact SideC_refl b.asks

lemma fakCleanupAsks_master {b : Book} (hInv : Inv b) (hU : Uncrossed b) :
    Inv (fakCleanupAsks b) ∧ Uncrossed (fakCleanupAsks b) ∧
    ((fakCleanupAsks b).orders.map Prod.fst).Sublist (b.orders.map Prod.fst) ∧
    SideC b.bids (fakCleanupAsks b).bids ∧ SideC b.asks (fakCleanupAsks b).asks := by
  rcases fakCleanupAsks_cases b with he | ⟨p, o, t, ar, ha, hfk, he⟩
  · rw [he]
    exact ⟨hInv, hU, List.Sublist.refl _, SideC_refl _, SideC_refl _⟩
  · rw [he]
    have hch := cancel_front_ask hInv ha
    refine ⟨cancel_inv o.orderId hInv, cancel_uncrossed hInv hU o.orderId,
      cancel_orders_sublist b o.orderId, ?_, ?_⟩
    · rw [hch]
      exact SideC_refl b.bids
    · rw [hch]
      by_cases ht : t.isEmpty
      · exact ⟨[(p, o :: t)], ar, by rw [ha]; rfl, Or.inl (by simp [ht])⟩
      · exact ⟨[], b.asks, rfl, Or.inr ⟨p, o :: t, t, ar, ha, by simp [ht],
          ⟨[o], Or.inl rfl⟩⟩⟩

/-! ### MatchOrders, AddOrder and MatchOrder preserve the invariants -/

lemma matchOrders_master {b : Book} (hInv : Inv b) :
    Inv (MatchOrders b).1 ∧ Uncrossed (MatchOrders b).1 ∧
    ((MatchOrders b).1.orders.map Prod.fst).Sublist (b.orders.map Prod.fst) ∧
    SideC b.bids (MatchOrders b).1.bids ∧ SideC b.asks (MatchOrders b).1.asks := by
  obtain ⟨h1, h2, h3, h4, h5⟩ :=
    matchOrdersGo_master (totalOrders b + 1) b [] hInv (by omega)
  set r := matchOrdersGo (totalOrders b + 1) b [] with hr
  obtain ⟨g1, g2, g3, g4, g5⟩ := fakCleanupBids_master h1 h2
  obtain ⟨k1, k2, k3, k4, k5⟩ := fakCleanupAsks_master g1 g2
  refine ⟨k1, k2, (k3.trans g3).trans h3, ?_, ?_⟩
  · exact SideC_trans (SideC_trans h4 g4) k4
  · exact SideC_trans (SideC_trans h5 g5) k5

lemma addOrder_dup {b : Book} {o : Order} (h : containsIndex b.orders o.orderId = true) :
    AddOrder b o = (b, []) := by
  unfold AddOrder
  simp [h]

lemma addOrder_rej {b : Book} {o : Order} (h1 : o.orderType = OrderType.FillAndKill)
    (h2 : CanMatch b o.side o.price = false) : AddOrder b o = (b, []) := by
  unfold AddOrder
  by_cases hdup : containsIndex b.orders o.orderId
  · simp [hdup]
  · simp [hdup, h1, h2]

lemma addOrder_insert_buy {b : Book} {o : Order}
    (hdup : containsIndex b.orders o.orderId = false)
    (hrej : ¬(o.orderType = OrderType.FillAndKill ∧ CanMatch b o.side o.price = false))
    (hside : o.side = Side.Buy) :
    AddOrder b o = MatchOrders { b with bids := insertOrderDesc b.bids o, orders := b.orders ++ [(o.orderId, ⟨o.orderType, o.side, o.price⟩)] } := by
  unfold AddOrder
  rw [hside] at hrej
  simp [hdup, hside, hrej]

lemma addOrder_insert_sell {b : Book} {o : Order}
    (hdup : containsIndex b.orders o.orderId = false)
    (hrej : ¬(o.orderType = OrderType.FillAndKill ∧ CanMatch b o.side o.price = false))
    (hside : o.side = Side.Sell) :
    AddOrder b o = MatchOrders { b with asks := insertOrderAsc b.asks o, orders := b.orders ++ [(o.orderId, ⟨o.orderType, o.side, o.price⟩)] } := by
  unfold AddOrder
  have hns : ¬(o.side = Side.Buy) := by rw [hside]; simp
  simp only [hdup, Bool.false_eq_true, if_false, if_neg hrej, if_neg hns]

lemma addOrder_master {b : Book} {o : Order} (hInv : Inv b) (hU : Uncrossed b) :
    Inv (AddOrder b o).1 ∧ Uncrossed (AddOrder b o).1 := by
  by_cases hdup : containsIndex b.orders o.orderId
  · rw [addOrder_dup hdup]
    exact ⟨hInv, hU⟩
  by_cases hrej : o.orderType = OrderType.FillAndKill ∧ CanMatch b o.side o.price = false
  · rw [addOrder_rej hrej.1 hrej.2]
    exact ⟨hInv, hU⟩
  cases hside : o.side with
  | Buy =>
    rw [addOrder_insert_buy (by simpa using hdup) hrej hside]
    have hInv2 := insert_inv_buy hInv (by simpa using hdup) hside
    exact ⟨(matchOrders_master hInv2).1, (matchOrders_master hInv2).2.1⟩
  | Sell =>
    rw [addOrder_insert_sell (by simpa using hdup) hrej hside]
    have hInv2 := insert_inv_sell hInv (by simpa using hdup) hside
    exact ⟨(matchOrders_master hInv2).1, (matchOrders_master hInv2).2.1⟩

lemma matchOrder_master {b : Book} {m : OrderModify} (hInv : Inv b) (hU : Uncrossed b) :
    Inv (MatchOrder b m).1 ∧ Uncrossed (MatchOrder b m).1 := by
  unfold MatchOrder
  cases hl : lookupIndex b.orders m.orderId with
  | none => exact ⟨hInv, hU⟩
  | some e =>
    have h1 := cancel_inv m.orderId hInv
    have h2 := cancel_uncrossed hInv hU m.orderId
    exact addOrder_master h1 h2

lemma size_eq_totalOrders {b : Book} (hInv : Inv b) : Size b = totalOrders b := by
  obtain ⟨-, -, -, -, -, -, -, hperm, -⟩ := hInv
  have := hperm.length_eq
  simpa [Size, totalOrders] using this

/-! ### FillAndKill never rests -/

lemma cancel_not_contains {b : Book} (hInv : Inv b) (orderId : Nat) :
    containsIndex (CancelOrder b orderId).orders orderId = false := by
  obtain ⟨-, -, -, -, -, -, hnd, -, -⟩ := hInv
  cases hl : lookupIndex b.orders orderId with
  | none =>
    rw [cancel_of_not_contains (by rw [containsIndex_false_iff, ← lookupIndex_eq_none]; exact hl)]
    rw [containsIndex_false_iff, ← lookupIndex_eq_none]
    exact hl
  | some e =>
    have ho : (CancelOrder b orderId).orders = eraseIndex b.orders orderId := by
      unfold CancelOrder
      rw [hl]
      by_cases hside : e.side = Side.Sell <;> simp [hside]
    rw [containsIndex_false_iff, ho, eraseIndex_map_fst]
    exact hnd.not_mem_erase

lemma not_contains_of_sublist {l1 l2 : List (Nat × OrderEntry)} {orderId : Nat}
    (hs : (l1.map Prod.fst).Sublist (l2.map Prod.fst))
    (h : containsIndex l2 orderId = false) : containsIndex l1 orderId = false := by
  rw [containsIndex_false_iff] at h ⊢
  exact fun hm => h (hs.subset hm)

lemma matchOrdersGo_fak_bid (fuel : Nat) (b : Book) (acc : List Trade) {p : Int}
    {o : Order} {t : List Order} {br : List (Int × List Order)}
    (hInv : Inv b) (hfuel : totalOrders b < fuel)
    (hb : b.bids = (p, o :: t) :: br) (hfk : o.orderType = OrderType.FillAndKill) :
    (∃ o2 t2 br2, (matchOrdersGo fuel b acc).1.bids = (p, o2 :: t2) :: br2 ∧
        o2.orderId = o.orderId ∧ o2.orderType = OrderType.FillAndKill) ∨
      containsIndex (matchOrdersGo fuel b acc).1.orders o.orderId = false := by
  induction fuel generalizing b acc p o t br with
  | zero => omega
  | succ fuel ih =>
    cases hs : matchStep b with
    | exit =>
      rw [show matchOrdersGo (fuel + 1) b acc = (b, acc.reverse) by
        rw [matchOrdersGo_succ, hs]]
      exact Or.inl ⟨o, t, br, hb, rfl, hfk⟩
    | spin => exact absurd hs (matchStep_no_spin hInv)
    | step b2 t' =>
      obtain ⟨hInv2, hltt, hsubo, -, -, -, -⟩ := step_master hInv hs
      obtain ⟨bp, bid, bt, br', ap, ask, at2, ar, hb', ha', hpa, hb2b, hb2a, hb2o, ht'⟩ :=
        matchStep_step_cases hs
      rw [hb] at hb'
      injection hb' with h1 h2
      injection h1 with hp1 hq1
      subst hp1
      subst h2
      injection hq1 with ho1 ht1
      subst ho1
      subst ht1
      rw [show matchOrdersGo (fuel + 1) b acc = matchOrdersGo fuel b2 (t' :: acc) by
        rw [matchOrdersGo_succ, hs]]
      by_cases h1 : o.remainingQuantity - min o.remainingQuantity ask.remainingQuantity = 0
      · -- the tracked FillAndKill order was fully filled and erased from the index
        refine Or.inr ?_
        have hgone : containsIndex b2.orders o.orderId = false := by
          obtain ⟨-, -, -, -, -, -, hnd, -, -⟩ := hInv
          rw [containsIndex_false_iff]
          rw [hb2o]
          by_cases h2 : ask.remainingQuantity - min o.remainingQuantity ask.remainingQuantity = 0
          · rw [if_pos h2, if_pos h1]
            rw [eraseIndex_map_fst, eraseIndex_map_fst]
            intro hm
            exact hnd.not_mem_erase ((List.erase_sublist _ _).subset hm)
          · rw [if_neg h2, if_pos h1]
            rw [eraseIndex_map_fst]
            exact hnd.not_mem_erase
        obtain ⟨-, -, hsub2, -, -⟩ := matchOrdersGo_master fuel b2 (t' :: acc) hInv2 (by omega)
        exact not_contains_of_sublist hsub2 hgone
      · -- the tracked order stays at the front of the best bid level, reduced
        have hb2b' : b2.bids = (p, { o with remainingQuantity := o.remainingQuantity - min o.remainingQuantity ask.remainingQuantity } :: t) :: br := by
          rw [hb2b, if_neg h1]
        exact ih b2 (t' :: acc) (o := { o with remainingQuantity := o.remainingQuantity - min o.remainingQuantity ask.remainingQuantity }) hInv2 (by omega) hb2b' hfk

lemma matchOrdersGo_fak_ask (fuel : Nat) (b : Book) (acc : List Trade) {p : Int}
    {o : Order} {t : List Order} {ar : List (Int × List Order)}
    (hInv : Inv b) (hfuel : totalOrders b < fuel)
    (ha : b.asks = (p, o :: t) :: ar) (hfk : o.orderType = OrderType.FillAndKill) :
    (∃ o2 t2 ar2, (matchOrdersGo fuel b acc).1.asks = (p, o2 :: t2) :: ar2 ∧
        o2.orderId = o.orderId ∧ o2.orderType = OrderType.FillAndKill) ∨
      containsIndex (matchOrdersGo fuel b acc).1.orders o.orderId = false := by
  induction fuel generalizing b acc p o t ar with
  | zero => omega
  | succ fuel ih =>
    cases hs : matchStep b with
    | exit =>
      rw [show matchOrdersGo (fuel + 1) b acc = (b, acc.reverse) by
        rw [matchOrdersGo_succ, hs]]
      exact Or.inl ⟨o, t, ar, ha, rfl, hfk⟩
    | spin => exact absurd hs (matchStep_no_spin hInv)
    | step b2 t' =>
      obtain ⟨hInv2, hltt, hsubo, -, -, -, -⟩ := step_master hInv hs
      obtain ⟨bp, bid, bt, br', ap, ask, at2, ar', ha', hb', hpa, hb2b, hb2a, hb2o, ht'⟩ :=
        matchStep_step_cases hs
      rw [ha] at hb'
      injection hb' with h1 h2
      injection h1 with hp1 hq1
      subst hp1
      subst h2
      injection hq1 with ho1 ht1
      subst ho1
      subst ht1
      rw [show matchOrdersGo (fuel + 1) b acc = matchOrdersGo fuel b2 (t' :: acc) by
        rw [matchOrdersGo_succ, hs]]
      by_cases h1 : o.remainingQuantity - min bid.remainingQuantity o.remainingQuantity = 0
      · refine Or.inr ?_
        have hgone : containsIndex b2.orders o.orderId = false := by
          obtain ⟨-, -, -, -, -, -, hnd, -, -⟩ := hInv
          rw [containsIndex_false_iff]
          rw [hb2o]
          rw [if_pos h1]
          by_cases h2 : bid.remainingQuantity - min bid.remainingQuantity o.remainingQuantity = 0
          · rw [if_pos h2]
            rw [eraseIndex_map_fst, eraseIndex_map_fst]
            exact (hnd.erase _).not_mem_erase
          · rw [if_neg h2]
            rw [eraseIndex_map_fst]
            exact hnd.not_mem_erase
        obtain ⟨-, -, hsub2, -, -⟩ := matchOrdersGo_master fuel b2 (t' :: acc) hInv2 (by omega)
        exact not_contains_of_sublist hsub2 hgone
      · have hb2a' : b2.asks = (p, { o with remainingQuantity := o.remainingQuantity - min bid.remainingQuantity o.remainingQuantity } :: t) :: ar := by
          rw [hb2a, if_neg h1]
        exact ih b2 (t' :: acc) (o := { o with remainingQuantity := o.remainingQuantity - min bid.remainingQuantity o.remainingQuantity }) hInv2 (by omega) hb2a' hfk

lemma fakCleanupBids_asks {b : Book} (hInv : Inv b) : (fakCleanupBids b).asks = b.asks := by
  rcases fakCleanupBids_cases b with he | ⟨p, o, t, br, hb, hfk, he⟩
  · rw [he]
  · rw [he, cancel_front_bid hInv hb]

lemma addOrder_fak_absent {b : Book} {o : Order} (hInv : Inv b) (hU : Uncrossed b)
    (hfk : o.orderType = OrderType.FillAndKill)
    (hfresh : containsIndex b.orders o.orderId = false) :
    containsIndex (AddOrder b o).1.orders o.orderId = false := by
  by_cases hcm : CanMatch b o.side o.price = false
  · rw [addOrder_rej hfk hcm]
    exact hfresh
  have hcm' : CanMatch b o.side o.price = true := by
    cases hx : CanMatch b o.side o.price
    · exact absurd hx hcm
    · rfl
  have hrej : ¬(o.orderType = OrderType.FillAndKill ∧ CanMatch b o.side o.price = false) := by
    intro hc
    rw [hc.2] at hcm'
    exact Bool.noConfusion hcm'
  cases hside : o.side with
  | Buy =>
    rw [addOrder_insert_buy hfresh hrej hside]
    rw [hside] at hcm'
    have hfrontk : ∀ k ∈ b.bids.map Prod.fst, k < o.price := by
      intro k hk
      rcases hoa : b.asks with _ | ⟨⟨ap, al⟩, ar⟩
      · exfalso
        unfold CanMatch at hcm'
        rw [hoa] at hcm'
        exact Bool.noConfusion hcm'
      have hpge : ap ≤ o.price := by
        unfold CanMatch at hcm'
        rw [hoa] at hcm'
        exact of_decide_eq_true hcm'
      rcases hob : b.bids with _ | ⟨⟨bp, bl⟩, br⟩
      · rw [hob] at hk
        simp at hk
      have h2 : bp < ap := by
        unfold Uncrossed at hU
        rw [hob, hoa] at hU
        exact hU
      obtain ⟨hbs, -⟩ := hInv
      rw [hob] at hk hbs
      have h3 : k ≤ bp :=
        le_head_of_sorted_desc bp (br.map Prod.fst)
          (by simpa using hbs) (by simpa using hk)
      omega
    set b1 : Book := { b with bids := insertOrderDesc b.bids o, orders := b.orders ++ [(o.orderId, ⟨o.orderType, o.side, o.price⟩)] } with hb1
    have hInv1 : Inv b1 := insert_inv_buy hInv hfresh hside
    have hb1bids : b1.bids = (o.price, o :: []) :: b.bids := by
      rw [hb1]
      exact insertOrderDesc_front hfrontk
    have hmo : (MatchOrders b1).1 =
        fakCleanupAsks (fakCleanupBids (matchOrdersGo (totalOrders b1 + 1) b1 []).1) := rfl
    rw [hmo]
    set r1 : Book := (matchOrdersGo (totalOrders b1 + 1) b1 []).1 with hr1
    obtain ⟨hIr, hUr, -, -, -⟩ :=
      matchOrdersGo_master (totalOrders b1 + 1) b1 [] hInv1 (by omega)
    rcases matchOrdersGo_fak_bid (totalOrders b1 + 1) b1 [] hInv1 (by omega)
        hb1bids hfk with ⟨o2, t2, br2, hrb, ho2id, ho2fk⟩ | hgone
    · have he : fakCleanupBids r1 = CancelOrder r1 o2.orderId := by
        unfold fakCleanupBids
        rw [hrb]
        simp [ho2fk]
      rw [he]
      have hcc : containsIndex (CancelOrder r1 o2.orderId).orders o.orderId = false := by
        rw [← ho2id]
        exact cancel_not_contains hIr o2.orderId
      obtain ⟨-, -, k3, -, -⟩ :=
        fakCleanupAsks_master (cancel_inv o2.orderId hIr) (cancel_uncrossed hIr hUr o2.orderId)
      exact not_contains_of_sublist k3 hcc
    · obtain ⟨g1, g2, g3, -, -⟩ := fakCleanupBids_master hIr hUr
      obtain ⟨-, -, k3, -, -⟩ := fakCleanupAsks_master g1 g2
      exact not_contains_of_sublist (k3.trans g3) hgone
  | Sell =>
    rw [addOrder_insert_sell hfresh hrej hside]
    rw [hside] at hcm'
    have hfrontk : ∀ k ∈ b.asks.map Prod.fst, o.price < k := by
      intro k hk
      rcases hob : b.bids with _ | ⟨⟨bp, bl⟩, br⟩
      · exfalso
        unfold CanMatch at hcm'
        rw [hob] at hcm'
        exact Bool.noConfusion hcm'
      have hplb : o.price ≤ bp := by
        unfold CanMatch at hcm'
        rw [hob] at hcm'
        exact of_decide_eq_true hcm'
      rcases hoa : b.asks with _ | ⟨⟨ap, al⟩, ar⟩
      · rw [hoa] at hk
        simp at hk
      have h2 : bp < ap := by
        unfold Uncrossed at hU
        rw [hob, hoa] at hU
        exact hU
      obtain ⟨-, has, -⟩ := hInv
      rw [hoa] at hk has
      have h3 : ap ≤ k :=
        head_le_of_sorted_asc ap (ar.map Prod.fst)
          (by simpa using has) (by simpa using hk)
      omega
    set b1 : Book := { b with asks := insertOrderAsc b.asks o, orders := b.orders ++ [(o.orderId, ⟨o.orderType, o.side, o.price⟩)] } with hb1
    have hInv1 : Inv b1 := insert_inv_sell hInv hfresh hside
    have hb1asks : b1.asks = (o.price, o :: []) :: b.asks := by
      rw [hb1]
      exact insertOrderAsc_front hfrontk
    have hmo : (MatchOrders b1).1 =
        fakCleanupAsks (fakCleanupBids (matchOrdersGo (totalOrders b1 + 1) b1 []).1) := rfl
    rw [hmo]
    set r1 : Book := (matchOrdersGo (totalOrders b1 + 1) b1 []).1 with hr1
    obtain ⟨hIr, hUr, -, -, -⟩ :=
      matchOrdersGo_master (totalOrders b1 + 1) b1 [] hInv1 (by omega)
    rcases matchOrdersGo_fak_ask (totalOrders b1 + 1) b1 [] hInv1 (by omega)
        hb1asks hfk with ⟨o2, t2, ar2, hra, ho2id, ho2fk⟩ | hgone
    · obtain ⟨g1, g2, g3, -, -⟩ := fakCleanupBids_master hIr hUr
      have hga : (fakCleanupBids r1).asks = r1.asks := fakCleanupBids_asks hIr
      have he : fakCleanupAsks (fakCleanupBids r1) =
          CancelOrder (fakCleanupBids r1) o2.orderId := by
        unfold fakCleanupAsks
        rw [hga, hra]
        simp [ho2fk]
      rw [he]
      rw [← ho2id]
      exact cancel_not_contains g1 o2.orderId
    · obtain ⟨g1, g2, g3, -, -⟩ := fakCleanupBids_master hIr hUr
      obtain ⟨-, -, k3, -, -⟩ := fakCleanupAsks_master g1 g2
      exact not_contains_of_sublist (k3.trans g3) hgone

/-! ### Level aggregation arithmetic -/

lemma foldl_mod_eq (l : List Order) (s : Nat) :
    l.foldl (fun a o => (a + o.remainingQuantity) % U32) (s % U32) =
      (s + (l.map Order.remainingQuantity).sum) % U32 := by
  induction l generalizing s with
  | nil => simp
  | cons o t ih =>
    rw [List.foldl_cons]
    rw [show (s % U32 + o.remainingQuantity) % U32 = (s + o.remainingQuantity) % U32 from
      Nat.mod_add_mod s U32 o.remainingQuantity]
    rw [ih (s + o.remainingQuantity)]
    simp [Nat.add_assoc]

lemma CreateLevelInfos_eq (price : Int) (orders : List Order) :
    CreateLevelInfos price orders =
      ⟨price, ((orders.map Order.remainingQuantity).sum) % U32⟩ := by
  unfold CreateLevelInfos
  have h := foldl_mod_eq orders 0
  rw [Nat.zero_mod] at h
  rw [h]
  simp

/-! ### Claim theorems -/

/-- C5: `ModifyOrder` (the source's `MatchOrder`) returns exactly the trades
of, and leaves exactly the state of, `CancelOrder` followed by `AddOrder` of
a brand-new order carrying the original order's type and the request's
side/price/quantity, with remaining quantity reset to the new quantity
(`modifySpec` is written from the spec's words); the re-created order is
fully fresh, so it is appended at the back of its new price level by
`AddOrder` and loses its original time priority. -/
theorem claim_C5_modify_is_cancel_then_add (b : Book) (m : OrderModify) :
    MatchOrder b m = modifySpec b m ∧
    (∀ t : OrderType,
      (m.ToOrderPointer t).remainingQuantity = m.quantity ∧
      (m.ToOrderPointer t).initialQuantity = m.quantity ∧
      (m.ToOrderPointer t).orderType = t ∧
      (m.ToOrderPointer t).side = m.side ∧
      (m.ToOrderPointer t).price = m.price) := by
  constructor
  · unfold MatchOrder modifySpec
    cases lookupIndex b.orders m.orderId <;> rfl
  · intro t
    exact ⟨rfl, rfl, rfl, rfl, rfl⟩

/-- C6: adding an order whose identifier is already in the book, cancelling
an unknown identifier, and modifying an unknown identifier are silent
no-ops: no error is raised (the operations are total), no trades are
returned, and the entire book state is unchanged. -/
theorem claim_C6_unknown_ids (b : Book) (o : Order) (orderId : Nat) (m : OrderModify) :
    (containsIndex b.orders o.orderId = true → AddOrder b o = (b, [])) ∧
    (containsIndex b.orders orderId = false → CancelOrder b orderId = b) ∧
    (containsIndex b.orders m.orderId = false → MatchOrder b m = (b, [])) := by
  refine ⟨fun h => addOrder_dup h, fun h => cancel_of_not_contains h, fun h => ?_⟩
  unfold MatchOrder
  rw [(lookupIndex_eq_none _ _).mpr ((containsIndex_false_iff _ _).mp h)]

/-- C6 witness: on a concrete one-order book, the duplicate add, the unknown
cancel and the unknown modify all return an empty result and leave the book
unchanged. -/
theorem claim_C6_unknown_ids_witness :
    containsIndex (⟨[(100, [mkOrder OrderType.GoodTillCancel 1 Side.Buy 100 10])], [], [(1, ⟨OrderType.GoodTillCancel, Side.Buy, 100⟩)]⟩ : Book).orders 1 = true ∧
    AddOrder ⟨[(100, [mkOrder OrderType.GoodTillCancel 1 Side.Buy 100 10])], [], [(1, ⟨OrderType.GoodTillCancel, Side.Buy, 100⟩)]⟩ (mkOrder OrderType.GoodTillCancel 1 Side.Sell 90 5) = (⟨[(100, [mkOrder OrderType.GoodTillCancel 1 Side.Buy 100 10])], [], [(1, ⟨OrderType.GoodTillCancel, Side.Buy, 100⟩)]⟩, []) ∧
    containsIndex (⟨[(100, [mkOrder OrderType.GoodTillCancel 1 Side.Buy 100 10])], [], [(1, ⟨OrderType.GoodTillCancel, Side.Buy, 100⟩)]⟩ : Book).orders 2 = false ∧
    CancelOrder ⟨[(100, [mkOrder OrderType.GoodTillCancel 1 Side.Buy 100 10])], [], [(1, ⟨OrderType.GoodTillCancel, Side.Buy, 100⟩)]⟩ 2 = ⟨[(100, [mkOrder OrderType.GoodTillCancel 1 Side.Buy 100 10])], [], [(1, ⟨OrderType.GoodTillCancel, Side.Buy, 100⟩)]⟩ ∧
    MatchOrder ⟨[(100, [mkOrder OrderType.GoodTillCancel 1 Side.Buy 100 10])], [], [(1, ⟨OrderType.GoodTillCancel, Side.Buy, 100⟩)]⟩ ⟨2, Side.Buy, 50, 5⟩ = (⟨[(100, [mkOrder OrderType.GoodTillCancel 1 Side.Buy 100 10])], [], [(1, ⟨OrderType.GoodTillCancel, Side.Buy, 100⟩)]⟩, []) := by
  refine ⟨by decide, ?_, by decide, ?_, ?_⟩
  · exact (claim_C6_unknown_ids _ (mkOrder OrderType.GoodTillCancel 1 Side.Sell 90 5) 2 ⟨2, Side.Buy, 50, 5⟩).1 (by decide)
  · exact (claim_C6_unknown_ids _ (mkOrder OrderType.GoodTillCancel 1 Side.Sell 90 5) 2 ⟨2, Side.Buy, 50, 5⟩).2.1 (by decide)
  · exact (claim_C6_unknown_ids _ (mkOrder OrderType.GoodTillCancel 1 Side.Sell 90 5) 2 ⟨2, Side.Buy, 50, 5⟩).2.2 (by decide)

/-- C8: `Order.Fill` fails (throws, modelled as `Except.error`) exactly when
the requested quantity exceeds the order's remaining quantity, and otherwise
subtracts exactly that quantity; and for the quantity `MatchOrders` always
passes — `min` of the two front orders' remaining quantities — both `Fill`
calls always succeed, so the overfill branch is unreachable in the matching
loop. -/
theorem claim_C8_fill_guard (o bid ask : Order) (q : Nat) :
    ((∃ msg, o.Fill q = Except.error msg) ↔ o.remainingQuantity < q) ∧
    (o.Fill q = Except.ok { o with remainingQuantity := o.remainingQuantity - q } ↔
      q ≤ o.remainingQuantity) ∧
    (∃ bid2, bid.Fill (min bid.remainingQuantity ask.remainingQuantity) = Except.ok bid2) ∧
    (∃ ask2, ask.Fill (min bid.remainingQuantity ask.remainingQuantity) = Except.ok ask2) := by
  refine ⟨⟨fun ⟨msg, hm⟩ => ?_, fun h => ⟨_, fill_error h⟩⟩,
    ⟨fun h => ?_, fun h => fill_ok h⟩,
    ⟨_, fill_ok (Nat.min_le_left _ _)⟩, ⟨_, fill_ok (Nat.min_le_right _ _)⟩⟩
  · by_contra hc
    rw [fill_ok (by omega)] at hm
    exact Except.noConfusion hm
  · by_contra hc
    rw [fill_error (by omega)] at h
    exact Except.noConfusion h

/-- C10: `AddOrder` performs no quantity validation: a GoodTillCancel buy
order constructed with quantity 0 on an empty book (so its price crosses
nothing) is accepted and stored, `Size` counts it, it contributes 0 to its
level's aggregated quantity, and it is already `isFilled` on arrival. -/
theorem claim_C10_zero_quantity :
    (AddOrder emptyBook (mkOrder OrderType.GoodTillCancel 7 Side.Buy 100 0)).2 = [] ∧
    Size (AddOrder emptyBook (mkOrder OrderType.GoodTillCancel 7 Side.Buy 100 0)).1 = 1 ∧
    containsIndex (AddOrder emptyBook (mkOrder OrderType.GoodTillCancel 7 Side.Buy 100 0)).1.orders 7 = true ∧
    (GetOrderInfos (AddOrder emptyBook (mkOrder OrderType.GoodTillCancel 7 Side.Buy 100 0)).1).GetBids = [⟨100, 0⟩] ∧
    (mkOrder OrderType.GoodTillCancel 7 Side.Buy 100 0).isFilled = true := by
  decide

/-- C1: one crossing event of the matching pass (run by `AddOrder` and
`ModifyOrder` through `MatchOrders`): while the best bid price is at least
the best ask price, the front (oldest) orders of the two best queues are
matched with `matchedQty = min` of their remaining quantities; `matchedQty`
never exceeds either pre-fill remaining quantity; both `Fill` calls succeed
and reduce each order's remaining quantity by exactly `matchedQty` (filled
orders are popped and erased from the index, emptied levels erased); and
exactly one Trade pair is emitted whose halves record each resting order's
own limit price and share the quantity `matchedQty`. -/
theorem claim_C1_crossing_event (fuel : Nat) (b : Book) (acc : List Trade)
    (bp ap : Int) (bid ask : Order) (bt at2 : List Order)
    (br ar : List (Int × List Order)) (q : Nat)
    (hb : b.bids = (bp, bid :: bt) :: br) (ha : b.asks = (ap, ask :: at2) :: ar)
    (hcross : ap ≤ bp) (hq : q = min bid.remainingQuantity ask.remainingQuantity) :
    q ≤ bid.remainingQuantity ∧ q ≤ ask.remainingQuantity ∧
    bid.Fill q = Except.ok { bid with remainingQuantity := bid.remainingQuantity - q } ∧
    ask.Fill q = Except.ok { ask with remainingQuantity := ask.remainingQuantity - q } ∧
    matchOrdersGo (fuel + 1) b acc =
      matchOrdersGo fuel
        ⟨(if bid.remainingQuantity - q = 0 then (if bt.isEmpty then br else (bp, bt) :: br)
          else (bp, { bid with remainingQuantity := bid.remainingQuantity - q } :: bt) :: br),
         (if ask.remainingQuantity - q = 0 then (if at2.isEmpty then ar else (ap, at2) :: ar)
          else (ap, { ask with remainingQuantity := ask.remainingQuantity - q } :: at2) :: ar),
         (if ask.remainingQuantity - q = 0 then eraseIndex (if bid.remainingQuantity - q = 0 then eraseIndex b.orders bid.orderId else b.orders) ask.orderId else (if bid.remainingQuantity - q = 0 then eraseIndex b.orders bid.orderId else b.orders))⟩
        (⟨⟨bid.orderId, bid.price, q⟩, ⟨ask.orderId, ask.price, q⟩⟩ :: acc) := by
  subst hq
  refine ⟨Nat.min_le_left _ _, Nat.min_le_right _ _,
    fill_ok (Nat.min_le_left _ _), fill_ok (Nat.min_le_right _ _), ?_⟩
  rw [matchOrdersGo_succ, matchStep_eq hb ha hcross rfl]

/-- C1 witness: one crossing event on a concrete book — buy 10 resting at
100, sell 4 resting at 100 — fills both fronts by 4, leaves the bid with 6,
pops the filled ask and its level, and emits the single Trade pair
recording both orders' own price 100 and quantity 4. -/
theorem claim_C1_crossing_event_witness :
    (4 : Nat) ≤ 10 ∧ (4 : Nat) ≤ 4 ∧
    (mkOrder OrderType.GoodTillCancel 1 Side.Buy 100 10).Fill 4 =
      Except.ok ⟨OrderType.GoodTillCancel, 1, Side.Buy, 100, 10, 6⟩ ∧
    (mkOrder OrderType.GoodTillCancel 2 Side.Sell 100 4).Fill 4 =
      Except.ok ⟨OrderType.GoodTillCancel, 2, Side.Sell, 100, 4, 0⟩ ∧
    matchOrdersGo 4 ⟨[(100, [mkOrder OrderType.GoodTillCancel 1 Side.Buy 100 10])], [(100, [mkOrder OrderType.GoodTillCancel 2 Side.Sell 100 4])], [(1, ⟨OrderType.GoodTillCancel, Side.Buy, 100⟩), (2, ⟨OrderType.GoodTillCancel, Side.Sell, 100⟩)]⟩ [] =
      matchOrdersGo 3 ⟨[(100, [⟨OrderType.GoodTillCancel, 1, Side.Buy, 100, 10, 6⟩])], [], [(1, ⟨OrderType.GoodTillCancel, Side.Buy, 100⟩)]⟩ [⟨⟨1, 100, 4⟩, ⟨2, 100, 4⟩⟩] :=
  claim_C1_crossing_event 3
    ⟨[(100, [mkOrder OrderType.GoodTillCancel 1 Side.Buy 100 10])], [(100, [mkOrder OrderType.GoodTillCancel 2 Side.Sell 100 4])], [(1, ⟨OrderType.GoodTillCancel, Side.Buy, 100⟩), (2, ⟨OrderType.GoodTillCancel, Side.Sell, 100⟩)]⟩
    [] 100 100 (mkOrder OrderType.GoodTillCancel 1 Side.Buy 100 10)
    (mkOrder OrderType.GoodTillCancel 2 Side.Sell 100 4) [] [] [] [] 4 rfl rfl
    (by decide) (by decide)

/-- C2 counterexample: the claim's unconditional clause "in every case,
after AddOrder returns, the FillAndKill order's identifier is absent from
the book" is false.  Submitting a FillAndKill order whose identifier
already rests in the book (here, id 1 rests as a GoodTillCancel buy) hits
the duplicate-id check first: AddOrder returns no trades and id 1 is still
present in the book afterwards. -/
theorem claim_C2_counterexample :
    (AddOrder (AddOrder emptyBook (mkOrder OrderType.GoodTillCancel 1 Side.Buy 100 10)).1
        (mkOrder OrderType.FillAndKill 1 Side.Sell 100 5)).2 = [] ∧
    (mkOrder OrderType.FillAndKill 1 Side.Sell 100 5).orderType = OrderType.FillAndKill ∧
    containsIndex (AddOrder (AddOrder emptyBook (mkOrder OrderType.GoodTillCancel 1 Side.Buy 100 10)).1
        (mkOrder OrderType.FillAndKill 1 Side.Sell 100 5)).1.orders 1 = true := by
  decide

/-- C2 (amended): for a FillAndKill order, if at submission it cannot cross
the opposite side's best price (buy price strictly below the best ask, sell
price strictly above the best bid, or opposite side empty) it is rejected
outright — book unchanged and zero trades; and, provided its identifier is
not already resting in the book, after `AddOrder` returns the identifier is
absent from the book (the unamended claim fails for duplicate identifiers,
see the counterexample). -/
theorem claim_C2_fillAndKill (b : Book) (o : Order)
    (hInv : Inv b) (hU : Uncrossed b) (hfk : o.orderType = OrderType.FillAndKill) :
    (o.side = Side.Buy → (b.asks = [] ∨ ∃ ap al ar, b.asks = (ap, al) :: ar ∧ o.price < ap) →
      AddOrder b o = (b, [])) ∧
    (o.side = Side.Sell → (b.bids = [] ∨ ∃ bp bl br, b.bids = (bp, bl) :: br ∧ bp < o.price) →
      AddOrder b o = (b, [])) ∧
    (containsIndex b.orders o.orderId = false →
      containsIndex (AddOrder b o).1.orders o.orderId = false) := by
  refine ⟨fun hs hc => addOrder_rej hfk ?_, fun hs hc => addOrder_rej hfk ?_,
    fun hfresh => addOrder_fak_absent hInv hU hfk hfresh⟩
  · rw [hs]
    unfold CanMatch
    rcases hc with hc | ⟨ap, al, ar, heq, hlt⟩
    · rw [hc]
    · rw [heq]
      simp
      omega
  · rw [hs]
    unfold CanMatch
    rcases hc with hc | ⟨bp, bl, br, heq, hlt⟩
    · rw [hc]
    · rw [heq]
      simp
      omega

/-- C2 witness: on a concrete book holding one resting sell at 101, a
FillAndKill buy at 100 with a fresh identifier is rejected outright with
the book unchanged, and its identifier is absent afterwards. -/
theorem claim_C2_fillAndKill_witness :
    Inv (⟨[], [(101, [mkOrder OrderType.GoodTillCancel 3 Side.Sell 101 5])], [(3, ⟨OrderType.GoodTillCancel, Side.Sell, 101⟩)]⟩ : Book) ∧
    Uncrossed (⟨[], [(101, [mkOrder OrderType.GoodTillCancel 3 Side.Sell 101 5])], [(3, ⟨OrderType.GoodTillCancel, Side.Sell, 101⟩)]⟩ : Book) ∧
    (mkOrder OrderType.FillAndKill 4 Side.Buy 100 3).orderType = OrderType.FillAndKill ∧
    (((mkOrder OrderType.FillAndKill 4 Side.Buy 100 3).side = Side.Buy →
      ((⟨[], [(101, [mkOrder OrderType.GoodTillCancel 3 Side.Sell 101 5])], [(3, ⟨OrderType.GoodTillCancel, Side.Sell, 101⟩)]⟩ : Book).asks = [] ∨ ∃ ap al ar, (⟨[], [(101, [mkOrder OrderType.GoodTillCancel 3 Side.Sell 101 5])], [(3, ⟨OrderType.GoodTillCancel, Side.Sell, 101⟩)]⟩ : Book).asks = (ap, al) :: ar ∧ (mkOrder OrderType.FillAndKill 4 Side.Buy 100 3).price < ap) →
      AddOrder ⟨[], [(101, [mkOrder OrderType.GoodTillCancel 3 Side.Sell 101 5])], [(3, ⟨OrderType.GoodTillCancel, Side.Sell, 101⟩)]⟩ (mkOrder OrderType.FillAndKill 4 Side.Buy 100 3) = (⟨[], [(101, [mkOrder OrderType.GoodTillCancel 3 Side.Sell 101 5])], [(3, ⟨OrderType.GoodTillCancel, Side.Sell, 101⟩)]⟩, [])) ∧
    ((mkOrder OrderType.FillAndKill 4 Side.Buy 100 3).side = Side.Sell →
      ((⟨[], [(101, [mkOrder OrderType.GoodTillCancel 3 Side.Sell 101 5])], [(3, ⟨OrderType.GoodTillCancel, Side.Sell, 101⟩)]⟩ : Book).bids = [] ∨ ∃ bp bl br, (⟨[], [(101, [mkOrder OrderType.GoodTillCancel 3 Side.Sell 101 5])], [(3, ⟨OrderType.GoodTillCancel, Side.Sell, 101⟩)]⟩ : Book).bids = (bp, bl) :: br ∧ bp < (mkOrder OrderType.FillAndKill 4 Side.Buy 100 3).price) →
      AddOrder ⟨[], [(101, [mkOrder OrderType.GoodTillCancel 3 Side.Sell 101 5])], [(3, ⟨OrderType.GoodTillCancel, Side.Sell, 101⟩)]⟩ (mkOrder OrderType.FillAndKill 4 Side.Buy 100 3) = (⟨[], [(101, [mkOrder OrderType.GoodTillCancel 3 Side.Sell 101 5])], [(3, ⟨OrderType.GoodTillCancel, Side.Sell, 101⟩)]⟩, [])) ∧
    (containsIndex (⟨[], [(101, [mkOrder OrderType.GoodTillCancel 3 Side.Sell 101 5])], [(3, ⟨OrderType.GoodTillCancel, Side.Sell, 101⟩)]⟩ : Book).orders (mkOrder OrderType.FillAndKill 4 Side.Buy 100 3).orderId = false →
      containsIndex (AddOrder ⟨[], [(101, [mkOrder OrderType.GoodTillCancel 3 Side.Sell 101 5])], [(3, ⟨OrderType.GoodTillCancel, Side.Sell, 101⟩)]⟩ (mkOrder OrderType.FillAndKill 4 Side.Buy 100 3)).1.orders (mkOrder OrderType.FillAndKill 4 Side.Buy 100 3).orderId = false)) :=
  ⟨by decide, by decide, rfl,
    claim_C2_fillAndKill _ (mkOrder OrderType.FillAndKill 4 Side.Buy 100 3)
      (by decide) (by decide) rfl⟩

/-- C3: price-time priority.  The matching pass only consumes each side
from the front: the resulting side is the original with whole best levels
removed from the front, a front prefix of the next level removed, and at
most the then-front order partially reduced — every order behind an order
with remaining quantity, and every level behind a non-empty better level,
is untouched (`SideC`).  And insertion appends the new order at the back of
its price level's queue, leaving all other queues unchanged. -/
theorem claim_C3_price_time_priority (b : Book) (o : Order)
    (ls : List (Int × List Order)) (p' : Int) (hInv : Inv b) :
    SideC b.bids (MatchOrders b).1.bids ∧ SideC b.asks (MatchOrders b).1.asks ∧
    (List.Pairwise (· > ·) (ls.map Prod.fst) →
      levelQueue (insertOrderDesc ls o) o.price = levelQueue ls o.price ++ [o]) ∧
    (List.Pairwise (· < ·) (ls.map Prod.fst) →
      levelQueue (insertOrderAsc ls o) o.price = levelQueue ls o.price ++ [o]) ∧
    (p' ≠ o.price →
      levelQueue (insertOrderDesc ls o) p' = levelQueue ls p' ∧
      levelQueue (insertOrderAsc ls o) p' = levelQueue ls p') :=
  ⟨(matchOrders_master hInv).2.2.2.1, (matchOrders_master hInv).2.2.2.2,
    fun h => insertOrderDesc_levelQueue_self h,
    fun h => insertOrderAsc_levelQueue_self h,
    fun h => ⟨insertOrderDesc_levelQueue_other h, insertOrderAsc_levelQueue_other h⟩⟩

/-- C3 witness: the priority properties instantiated on a concrete crossed
book and a concrete level list. -/
theorem claim_C3_price_time_priority_witness :
    Inv (⟨[(100, [mkOrder OrderType.GoodTillCancel 1 Side.Buy 100 10])], [(100, [mkOrder OrderType.GoodTillCancel 2 Side.Sell 100 4])], [(1, ⟨OrderType.GoodTillCancel, Side.Buy, 100⟩), (2, ⟨OrderType.GoodTillCancel, Side.Sell, 100⟩)]⟩ : Book) ∧
    (SideC (⟨[(100, [mkOrder OrderType.GoodTillCancel 1 Side.Buy 100 10])], [(100, [mkOrder OrderType.GoodTillCancel 2 Side.Sell 100 4])], [(1, ⟨OrderType.GoodTillCancel, Side.Buy, 100⟩), (2, ⟨OrderType.GoodTillCancel, Side.Sell, 100⟩)]⟩ : Book).bids (MatchOrders ⟨[(100, [mkOrder OrderType.GoodTillCancel 1 Side.Buy 100 10])], [(100, [mkOrder OrderType.GoodTillCancel 2 Side.Sell 100 4])], [(1, ⟨OrderType.GoodTillCancel, Side.Buy, 100⟩), (2, ⟨OrderType.GoodTillCancel, Side.Sell, 100⟩)]⟩).1.bids ∧
     SideC (⟨[(100, [mkOrder OrderType.GoodTillCancel 1 Side.Buy 100 10])], [(100, [mkOrder OrderType.GoodTillCancel 2 Side.Sell 100 4])], [(1, ⟨OrderType.GoodTillCancel, Side.Buy, 100⟩), (2, ⟨OrderType.GoodTillCancel, Side.Sell, 100⟩)]⟩ : Book).asks (MatchOrders ⟨[(100, [mkOrder OrderType.GoodTillCancel 1 Side.Buy 100 10])], [(100, [mkOrder OrderType.GoodTillCancel 2 Side.Sell 100 4])], [(1, ⟨OrderType.GoodTillCancel, Side.Buy, 100⟩), (2, ⟨OrderType.GoodTillCancel, Side.Sell, 100⟩)]⟩).1.asks ∧
     (List.Pairwise (· > ·) (([(100, [mkOrder OrderType.GoodTillCancel 5 Side.Buy 100 7])] : List (Int × List Order)).map Prod.fst) →
       levelQueue (insertOrderDesc [(100, [mkOrder OrderType.GoodTillCancel 5 Side.Buy 100 7])] (mkOrder OrderType.GoodTillCancel 9 Side.Buy 100 2)) 100 = levelQueue [(100, [mkOrder OrderType.GoodTillCancel 5 Side.Buy 100 7])] 100 ++ [mkOrder OrderType.GoodTillCancel 9 Side.Buy 100 2]) ∧
     (List.Pairwise (· < ·) (([(100, [mkOrder OrderType.GoodTillCancel 5 Side.Buy 100 7])] : List (Int × List Order)).map Prod.fst) →
       levelQueue (insertOrderAsc [(100, [mkOrder OrderType.GoodTillCancel 5 Side.Buy 100 7])] (mkOrder OrderType.GoodTillCancel 9 Side.Buy 100 2)) 100 = levelQueue [(100, [mkOrder OrderType.GoodTillCancel 5 Side.Buy 100 7])] 100 ++ [mkOrder OrderType.GoodTillCancel 9 Side.Buy 100 2]) ∧
     ((50 : Int) ≠ 100 →
       levelQueue (insertOrderDesc [(100, [mkOrder OrderType.GoodTillCancel 5 Side.Buy 100 7])] (mkOrder OrderType.GoodTillCancel 9 Side.Buy 100 2)) 50 = levelQueue [(100, [mkOrder OrderType.GoodTillCancel 5 Side.Buy 100 7])] 50 ∧
       levelQueue (insertOrderAsc [(100, [mkOrder OrderType.GoodTillCancel 5 Side.Buy 100 7])] (mkOrder OrderType.GoodTillCancel 9 Side.Buy 100 2)) 50 = levelQueue [(100, [mkOrder OrderType.GoodTillCancel 5 Side.Buy 100 7])] 50)) :=
  ⟨by decide,
    claim_C3_price_time_priority _ (mkOrder OrderType.GoodTillCancel 9 Side.Buy 100 2)
      [(100, [mkOrder OrderType.GoodTillCancel 5 Side.Buy 100 7])] 50 (by decide)⟩

/-- C4: every public operation preserves the structural invariants `Inv`
(levels present iff their queue is non-empty; queued orders on the side and
at the price of their level; index keys unique and a permutation of the
queued order ids; index entry data agreeing with the queued orders), and
consequently `Size` equals the total number of orders across all queues of
both sides. -/
theorem claim_C4_invariants (b : Book) (o : Order) (orderId : Nat) (m : OrderModify)
    (hInv : Inv b) (hU : Uncrossed b) :
    Inv (AddOrder b o).1 ∧ Inv (CancelOrder b orderId) ∧ Inv (MatchOrder b m).1 ∧
    Size b = totalOrders b :=
  ⟨(addOrder_master hInv hU).1, cancel_inv orderId hInv, (matchOrder_master hInv hU).1,
    size_eq_totalOrders hInv⟩

/-- C4 witness: the invariant preservation instantiated on a concrete
one-order book. -/
theorem claim_C4_invariants_witness :
    Inv (⟨[(100, [mkOrder OrderType.GoodTillCancel 1 Side.Buy 100 10])], [], [(1, ⟨OrderType.GoodTillCancel, Side.Buy, 100⟩)]⟩ : Book) ∧
    Uncrossed (⟨[(100, [mkOrder OrderType.GoodTillCancel 1 Side.Buy 100 10])], [], [(1, ⟨OrderType.GoodTillCancel, Side.Buy, 100⟩)]⟩ : Book) ∧
    (Inv (AddOrder ⟨[(100, [mkOrder OrderType.GoodTillCancel 1 Side.Buy 100 10])], [], [(1, ⟨OrderType.GoodTillCancel, Side.Buy, 100⟩)]⟩ (mkOrder OrderType.GoodTillCancel 2 Side.Sell 100 4)).1 ∧
     Inv (CancelOrder ⟨[(100, [mkOrder OrderType.GoodTillCancel 1 Side.Buy 100 10])], [], [(1, ⟨OrderType.GoodTillCancel, Side.Buy, 100⟩)]⟩ 1) ∧
     Inv (MatchOrder ⟨[(100, [mkOrder OrderType.GoodTillCancel 1 Side.Buy 100 10])], [], [(1, ⟨OrderType.GoodTillCancel, Side.Buy, 100⟩)]⟩ ⟨1, Side.Buy, 99, 6⟩).1 ∧
     Size (⟨[(100, [mkOrder OrderType.GoodTillCancel 1 Side.Buy 100 10])], [], [(1, ⟨OrderType.GoodTillCancel, Side.Buy, 100⟩)]⟩ : Book) = totalOrders ⟨[(100, [mkOrder OrderType.GoodTillCancel 1 Side.Buy 100 10])], [], [(1, ⟨OrderType.GoodTillCancel, Side.Buy, 100⟩)]⟩) :=
  ⟨by decide, by decide,
    claim_C4_invariants _ (mkOrder OrderType.GoodTillCancel 2 Side.Sell 100 4) 1
      ⟨1, Side.Buy, 99, 6⟩ (by decide) (by decide)⟩

/-- C7 counterexample: the claim's "quantity equals the exact sum of the
remaining quantities" is false: the aggregation accumulates in 32-bit
unsigned arithmetic, so a level holding two orders of 2^31 each reports
quantity 0 while the exact sum is 2^32.  The state is reachable: it is
built by two AddOrder calls on the empty book. -/
theorem claim_C7_counterexample :
    (GetOrderInfos (AddOrder (AddOrder emptyBook (mkOrder OrderType.GoodTillCancel 1 Side.Buy 100 2147483648)).1 (mkOrder OrderType.GoodTillCancel 2 Side.Buy 100 2147483648)).1).GetBids = [⟨100, 0⟩] ∧
    ((levelQueue (AddOrder (AddOrder emptyBook (mkOrder OrderType.GoodTillCancel 1 Side.Buy 100 2147483648)).1 (mkOrder OrderType.GoodTillCancel 2 Side.Buy 100 2147483648)).1.bids 100).map Order.remainingQuantity).sum = 4294967296 := by
  decide

/-- C7 (amended): `GetOrderLevels` (the source's `GetOrderInfos`) is a pure
projection of the book (the embedding gives it type `Book →
OrderbookLevelInfos`, so it cannot mutate state); it returns one entry per
existing price level on each side whose quantity is the sum of the level's
remaining quantities reduced modulo 2^32 (the accumulator is a 32-bit
unsigned integer — the unamended "exact sum" fails, see the
counterexample), bids sorted by price descending and asks ascending. -/
theorem claim_C7_level_aggregation (b : Book) (hInv : Inv b) :
    (GetOrderInfos b).GetBids =
      b.bids.map (fun pl => ⟨pl.1, ((pl.2.map Order.remainingQuantity).sum) % U32⟩) ∧
    (GetOrderInfos b).GetAsks =
      b.asks.map (fun pl => ⟨pl.1, ((pl.2.map Order.remainingQuantity).sum) % U32⟩) ∧
    List.Pairwise (· > ·) (((GetOrderInfos b).GetBids).map LevelInfo.price) ∧
    List.Pairwise (· < ·) (((GetOrderInfos b).GetAsks).map LevelInfo.price) := by
  obtain ⟨hbs, has, -⟩ := hInv
  have h1 : (GetOrderInfos b).GetBids =
      b.bids.map (fun pl => (⟨pl.1, ((pl.2.map Order.remainingQuantity).sum) % U32⟩ : LevelInfo)) := by
    unfold GetOrderInfos OrderbookLevelInfos.GetBids
    simp only [CreateLevelInfos_eq]
  have h2 : (GetOrderInfos b).GetAsks =
      b.asks.map (fun pl => (⟨pl.1, ((pl.2.map Order.remainingQuantity).sum) % U32⟩ : LevelInfo)) := by
    unfold GetOrderInfos OrderbookLevelInfos.GetAsks
    simp only [CreateLevelInfos_eq]
  refine ⟨h1, h2, ?_, ?_⟩
  · rw [h1, List.map_map]
    have he : (LevelInfo.price ∘ fun pl : Int × List Order =>
        (⟨pl.1, ((pl.2.map Order.remainingQuantity).sum) % U32⟩ : LevelInfo)) = Prod.fst := by
      funext pl
      rfl
    rw [he]
    exact hbs
  · rw [h2, List.map_map]
    have he : (LevelInfo.price ∘ fun pl : Int × List Order =>
        (⟨pl.1, ((pl.2.map Order.remainingQuantity).sum) % U32⟩ : LevelInfo)) = Prod.fst := by
      funext pl
      rfl
    rw [he]
    exact has

/-- C7 witness: the amended aggregation property instantiated on a concrete
two-level book. -/
theorem claim_C7_level_aggregation_witness :
    Inv (⟨[(100, [mkOrder OrderType.GoodTillCancel 1 Side.Buy 100 10])], [(102, [mkOrder OrderType.GoodTillCancel 2 Side.Sell 102 4])], [(1, ⟨OrderType.GoodTillCancel, Side.Buy, 100⟩), (2, ⟨OrderType.GoodTillCancel, Side.Sell, 102⟩)]⟩ : Book) ∧
    ((GetOrderInfos ⟨[(100, [mkOrder OrderType.GoodTillCancel 1 Side.Buy 100 10])], [(102, [mkOrder OrderType.GoodTillCancel 2 Side.Sell 102 4])], [(1, ⟨OrderType.GoodTillCancel, Side.Buy, 100⟩), (2, ⟨OrderType.GoodTillCancel, Side.Sell, 102⟩)]⟩).GetBids = (⟨[(100, [mkOrder OrderType.GoodTillCancel 1 Side.Buy 100 10])], [(102, [mkOrder OrderType.GoodTillCancel 2 Side.Sell 102 4])], [(1, ⟨OrderType.GoodTillCancel, Side.Buy, 100⟩), (2, ⟨OrderType.GoodTillCancel, Side.Sell, 102⟩)]⟩ : Book).bids.map (fun pl => ⟨pl.1, ((pl.2.map Order.remainingQuantity).sum) % U32⟩) ∧
     (GetOrderInfos ⟨[(100, [mkOrder OrderType.GoodTillCancel 1 Side.Buy 100 10])], [(102, [mkOrder OrderType.GoodTillCancel 2 Side.Sell 102 4])], [(1, ⟨OrderType.GoodTillCancel, Side.Buy, 100⟩), (2, ⟨OrderType.GoodTillCancel, Side.Sell, 102⟩)]⟩).GetAsks = (⟨[(100, [mkOrder OrderType.GoodTillCancel 1 Side.Buy 100 10])], [(102, [mkOrder OrderType.GoodTillCancel 2 Side.Sell 102 4])], [(1, ⟨OrderType.GoodTillCancel, Side.Buy, 100⟩), (2, ⟨OrderType.GoodTillCancel, Side.Sell, 102⟩)]⟩ : Book).asks.map (fun pl => ⟨pl.1, ((pl.2.map Order.remainingQuantity).sum) % U32⟩) ∧
     List.Pairwise (· > ·) (((GetOrderInfos ⟨[(100, [mkOrder OrderType.GoodTillCancel 1 Side.Buy 100 10])], [(102, [mkOrder OrderType.GoodTillCancel 2 Side.Sell 102 4])], [(1, ⟨OrderType.GoodTillCancel, Side.Buy, 100⟩), (2, ⟨OrderType.GoodTillCancel, Side.Sell, 102⟩)]⟩).GetBids).map LevelInfo.price) ∧
     List.Pairwise (· < ·) (((GetOrderInfos ⟨[(100, [mkOrder OrderType.GoodTillCancel 1 Side.Buy 100 10])], [(102, [mkOrder OrderType.GoodTillCancel 2 Side.Sell 102 4])], [(1, ⟨OrderType.GoodTillCancel, Side.Buy, 100⟩), (2, ⟨OrderType.GoodTillCancel, Side.Sell, 102⟩)]⟩).GetAsks).map LevelInfo.price)) :=
  ⟨by decide, claim_C7_level_aggregation _ (by decide)⟩

/-- C9 (implicit): the book is never left crossed: every public operation
takes an invariant-satisfying, uncrossed book to an uncrossed book — when
both sides are non-empty after the operation, the best bid price is
strictly below the best ask price (`Uncrossed`).  This is what makes the
post-match FillAndKill cleanup, which inspects only the front order of the
single best level per side, sufficient. -/
theorem claim_C9_never_crossed (b : Book) (o : Order) (orderId : Nat) (m : OrderModify)
    (hInv : Inv b) (hU : Uncrossed b) :
    Uncrossed (AddOrder b o).1 ∧ Uncrossed (CancelOrder b orderId) ∧
    Uncrossed (MatchOrder b m).1 :=
  ⟨(addOrder_master hInv hU).2, cancel_uncrossed hInv hU orderId,
    (matchOrder_master hInv hU).2⟩

/-- C9 witness: uncrossedness preservation instantiated on a concrete
one-order book, including an aggressively priced incoming buy. -/
theorem claim_C9_never_crossed_witness :
    Inv (⟨[], [(101, [mkOrder OrderType.GoodTillCancel 3 Side.Sell 101 5])], [(3, ⟨OrderType.GoodTillCancel, Side.Sell, 101⟩)]⟩ : Book) ∧
    Uncrossed (⟨[], [(101, [mkOrder OrderType.GoodTillCancel 3 Side.Sell 101 5])], [(3, ⟨OrderType.GoodTillCancel, Side.Sell, 101⟩)]⟩ : Book) ∧
    (Uncrossed (AddOrder ⟨[], [(101, [mkOrder OrderType.GoodTillCancel 3 Side.Sell 101 5])], [(3, ⟨OrderType.GoodTillCancel, Side.Sell, 101⟩)]⟩ (mkOrder OrderType.GoodTillCancel 4 Side.Buy 105 2)).1 ∧
     Uncrossed (CancelOrder ⟨[], [(101, [mkOrder OrderType.GoodTillCancel 3 Side.Sell 101 5])], [(3, ⟨OrderType.GoodTillCancel, Side.Sell, 101⟩)]⟩ 3) ∧
     Uncrossed (MatchOrder ⟨[], [(101, [mkOrder OrderType.GoodTillCancel 3 Side.Sell 101 5])], [(3, ⟨OrderType.GoodTillCancel, Side.Sell, 101⟩)]⟩ ⟨3, Side.Sell, 99, 5⟩).1) :=
  ⟨by decide, by decide,
    claim_C9_never_crossed _ (mkOrder OrderType.GoodTillCancel 4 Side.Buy 105 2) 3
      ⟨3, Side.Sell, 99, 5⟩ (by decide) (by decide)⟩

end OrderBookSpec
